import Mathlib

/-!
Verification development for the instant-messenger client/server pair
(`server.py`, `client.py`).  The Python code is shallowly embedded:

* byte streams and datagrams are `List Nat` (each element a byte value),
* text is a `List Nat` of Unicode scalar values (for the UTF-8 layer) or a
  `List Char` (for the command-routing layer),
* socket sends are pure: a successful send appends an entry to a log; a send
  to a dead or closed socket raises, modelled by a `Bool` success flag,
* the blocking receive loops become functions over an explicit event list.

Every definition is translated from the corresponding Python function; the
source location is named in its doc comment.
-/

/-! ## Byte packing (`struct.pack(!I, n)` / `struct.unpack(!I, bs)`) -/

/-- Big-endian 4-byte encoding of `n`, as `struct.pack(!I, n)` produces for
`n < 2^32` (for larger `n` the Python call raises `struct.error`; callers
carry that bound as a hypothesis). -/
def pack32 (n : Nat) : List Nat :=
  [n / 16777216 % 256, n / 65536 % 256, n / 256 % 256, n % 256]

/-- Big-endian unsigned interpretation of a byte list, as
`struct.unpack(!I, bs)` for a 4-byte `bs`. -/
def unpack32 (bs : List Nat) : Nat :=
  bs.foldl (fun a b => a * 256 + b) 0

/-! ## UTF-8 (`str.encode(utf-8)` / `bytes.decode(utf-8)`) -/

/-- Unicode scalar values: the code points the Python `str.encode(utf-8)` call, which
accepts (it raises on surrogates and there are no code points above
`0x10FFFF`). -/
def ValidScalar (c : Nat) : Prop :=
  c < 1114112 ∧ ¬(55296 ≤ c ∧ c < 57344)

instance (c : Nat) : Decidable (ValidScalar c) := by
  unfold ValidScalar; infer_instance

/-- Standard UTF-8 encoding of one scalar value (the byte sequence
`str.encode(utf-8)` emits for that character). -/
def utf8EncodeChar (c : Nat) : List Nat :=
  if c < 128 then [c]
  else if c < 2048 then [192 + c / 64, 128 + c % 64]
  else if c < 65536 then [224 + c / 4096, 128 + c / 64 % 64, 128 + c % 64]
  else [240 + c / 262144, 128 + c / 4096 % 64, 128 + c / 64 % 64, 128 + c % 64]

/-- UTF-8 encoding of a text, scalar by scalar. -/
def utf8Encode (text : List Nat) : List Nat :=
  (text.map utf8EncodeChar).flatten

/-- Decode one UTF-8-encoded scalar from the front of a byte list: the
scalar and the number of bytes consumed.  Strict, as `bytes.decode(utf-8)`:
stray continuation bytes, overlong forms, surrogates and code points above
`0x10FFFF` are rejected (`none`).  A missing continuation byte is read as the
out-of-range sentinel 256, failing the same range checks. -/
def utf8DecodeChar : List Nat → Option (Nat × Nat)
  | [] => none
  | b :: bs =>
    let b1 := bs.getD 0 256
    let b2 := bs.getD 1 256
    let b3 := bs.getD 2 256
    if b < 128 then some (b, 1)
    else if b < 194 then none
    else if b < 224 then
      if 128 ≤ b1 ∧ b1 < 192 then some ((b - 192) * 64 + (b1 - 128), 2) else none
    else if b < 240 then
      if (128 ≤ b1 ∧ b1 < 192) ∧ (128 ≤ b2 ∧ b2 < 192) then
        let c := (b - 224) * 4096 + (b1 - 128) * 64 + (b2 - 128)
        if 2048 ≤ c ∧ ¬(55296 ≤ c ∧ c < 57344) then some (c, 3) else none
      else none
    else if b < 245 then
      if (128 ≤ b1 ∧ b1 < 192) ∧ (128 ≤ b2 ∧ b2 < 192) ∧ (128 ≤ b3 ∧ b3 < 192) then
        let c := (b - 240) * 262144 + (b1 - 128) * 4096 + (b2 - 128) * 64 + (b3 - 128)
        if 65536 ≤ c ∧ c < 1114112 then some (c, 4) else none
      else none
    else none

theorem utf8DecodeChar_pos {l : List Nat} {c k : Nat}
    (h : utf8DecodeChar l = some (c, k)) : 1 ≤ k := by
  match l with
  | [] => simp [utf8DecodeChar] at h
  | b :: bs =>
    simp only [utf8DecodeChar] at h
    split_ifs at h <;> simp_all <;> omega

/-- Strict UTF-8 decoder, as `bytes.decode(utf-8)`; `none` models the
`UnicodeDecodeError` the Python call raises. -/
def utf8Decode (l : List Nat) : Option (List Nat) :=
  match hl : l with
  | [] => some []
  | b :: bs =>
    match h : utf8DecodeChar (b :: bs) with
    | none => none
    | some (c, k) => (utf8Decode ((b :: bs).drop k)).map (fun cs => c :: cs)
termination_by l.length
decreasing_by
  have hk := utf8DecodeChar_pos h
  simp only [List.length_drop, List.length_cons]
  omega

/-! ## Length-prefixed framing
(`Server.send_message` / `Server.receive_message`, server.py lines 165-197;
`Client.send_message` / `Client.receive_message` is the identical code in
client.py lines 48-80). -/

/-- The bytes `send_message` writes for a text: a 4-byte big-endian length
prefix followed by the UTF-8 bytes.  `none` models the `struct.error` raised
when the byte length does not fit in 4 bytes. -/
def sendMessageBytes (text : List Nat) : Option (List Nat) :=
  let mb := utf8Encode text
  if mb.length < 4294967296 then some (pack32 mb.length ++ mb) else none

/-- The `while len(message) < message_len` read loop of `receive_message`:
keep requesting the missing bytes; an empty read (stream end) returns `none`.
A stream read of `k` bytes takes `min k` of what remains. -/
def recvExactly (n : Nat) (acc : List Nat) (stream : List Nat) :
    Option (List Nat × List Nat) :=
  if h : acc.length < n then
    let chunk := stream.take (n - acc.length)
    if hc : chunk = [] then none
    else recvExactly n (acc ++ chunk) (stream.drop (n - acc.length))
  else some (acc, stream)
termination_by n - acc.length
decreasing_by
  simp only [List.length_append]
  have : 0 < (List.take (n - acc.length) stream).length := List.length_pos.mpr hc
  omega

/-- `receive_message` applied to the byte stream the socket will deliver
before end-of-stream: reads a 4-byte length prefix, then exactly that many
payload bytes, decodes UTF-8, and returns the text together with the bytes
left unconsumed on the stream.  Every failure (short prefix, stream end
mid-payload, decode error) returns `none` -- the Python function returns
`None` in all three cases. -/
def receiveMessage (stream : List Nat) : Option (List Nat × List Nat) :=
  let length_data := stream.take 4
  if length_data.length < 4 then none
  else
    let n := unpack32 length_data
    match recvExactly n [] (stream.drop 4) with
    | none => none
    | some (payload, rest) =>
      match utf8Decode payload with
      | some text => some (text, rest)
      | none => none

/-! ## Datagram chunk transport
(`Server.send_file_udp`, server.py lines 327-363;
`Client.receive_file_udp`, client.py lines 188-217). -/

/-- The `(chunk_num, chunk)` pairs produced by the sender read loop
(`while True: chunk = f.read(chunk_size) ...` with the running `chunk_num`),
for a file held as a byte list.  `chunk_size` is 1024 in the code; it is kept
as a parameter `cs` for the chunking lemmas.  (`f.read(0)` returns an empty bytes object, so
`cs = 0` sends nothing, matching the dead branch here.) -/
def udpPairs (cs : Nat) (num : Nat) (rest : List Nat) : List (Nat × List Nat) :=
  if h : rest = [] ∨ cs = 0 then []
  else (num, rest.take cs) :: udpPairs cs (num + 1) (rest.drop cs)
termination_by rest.length
decreasing_by
  simp only [not_or] at h
  have h1 : 0 < rest.length := List.length_pos.mpr h.1
  simp only [List.length_drop]; omega

/-- One datagram: `struct.pack(!II, chunk_num, len(chunk)) + chunk`. -/
def mkDatagram (p : Nat × List Nat) : List Nat :=
  pack32 p.1 ++ pack32 p.2.length ++ p.2

/-- All datagrams `send_file_udp` emits for a file, in order (chunk size
1024 as in the code). -/
def udpDatagrams (file : List Nat) : List (List Nat) :=
  (udpPairs 1024 0 file).map mkDatagram

/-- Receiver-side session state: `self.download_chunks` (a dict, modelled as
an insertion-ordered association list -- only fresh keys are ever inserted)
and `self.download_received`. -/
structure RecvState where
  chunks : List (Nat × List Nat)
  received : Nat
deriving DecidableEq

/-- Processing of one received datagram (client.py lines 196-203): if at
least 8 bytes arrived, unpack the chunk index and length, slice the payload,
and store it only if the index is new, adding its length to the byte
counter. -/
def recvDatagram (st : RecvState) (data : List Nat) : RecvState :=
  if 8 ≤ data.length then
    let chunk_num := unpack32 (data.take 4)
    let chunk_len := unpack32 ((data.drop 4).take 4)
    let chunk_data := (data.drop 8).take chunk_len
    if (st.chunks.lookup chunk_num).isNone then
      { chunks := st.chunks ++ [(chunk_num, chunk_data)],
        received := st.received + chunk_data.length }
    else st
  else st

/-- What one iteration of the receive loop observes on the socket: a datagram
arrives, or `recvfrom` raises `socket.timeout`. -/
inductive UdpEvent
  | datagram (data : List Nat)
  | timeout
deriving DecidableEq

/-- The `while self.download_received < self.download_file_size` loop of
`receive_file_udp` (client.py lines 194-211), driven by an explicit event
list.  The returned flag is `true` when the loop exited (all bytes received,
or a timeout with all expected chunk indices present) and `false` when the
event list ran out with the loop still waiting. -/
def receiveFileLoop (fileSize expected : Nat) (st : RecvState)
    (evs : List UdpEvent) : RecvState × Bool :=
  if st.received < fileSize then
    match evs with
    | [] => (st, false)
    | UdpEvent.datagram d :: rest =>
      receiveFileLoop fileSize expected (recvDatagram st d) rest
    | UdpEvent.timeout :: rest =>
      if expected ≤ st.chunks.length then (st, true)
      else receiveFileLoop fileSize expected st rest
  else (st, true)

/-- The write-out loop (client.py lines 213-217): iterate chunk indices
`0 .. expected-1` in order and write each stored payload, skipping missing
indices. -/
def materializeFile (expected : Nat) (st : RecvState) : List Nat :=
  ((List.range expected).map (fun i => (st.chunks.lookup i).getD [])).flatten

/-- Chunk `i` of a file at chunk size `cs`: the bytes the `i`-th of the sender, what its
`f.read(cs)` returns. -/
def chunkAt (cs : Nat) (l : List Nat) (i : Nat) : List Nat :=
  (l.drop (cs * i)).take cs

/-- Sum of the payload lengths of a pair list (the value
`self.download_received` reaches after storing exactly those chunks). -/
def sumLens (ps : List (Nat × List Nat)) : Nat :=
  (ps.map (fun p => p.2.length)).sum

/-! ## Server registry, groups and command routing
(`Server.__init__` state, and the message-handling methods of server.py).

Sockets are identifiers (`Nat`); text at this layer is `List Char`.  A send
to a socket in the `dead` parameter, or to a socket the server has already
closed, raises -- every operation that can let such an exception escape to
the `except` clause of `handle_client_message` returns a `Bool` success flag. -/

/-- The per-connection record stored in `self.clients` (the address is only
ever printed, but is kept for fidelity). -/
structure ClientInfo where
  username : List Char
  addr : Nat
deriving DecidableEq

/-- The mutable server state: `self.clients` and `self.groups` (insertion-
ordered dicts as association lists), the set of sockets the server has
closed, and the log of `send_message` calls that succeeded (socket, text). -/
structure ServerState where
  clients : List (Nat × ClientInfo)
  groups : List (List Char × List Nat)
  closed : List Nat
  log : List (Nat × List Char)
deriving DecidableEq

/-- A single quote character, used in several server reply texts. -/
def sglq : List Char := [Char.ofNat 39]

/-- `send_message` (server.py lines 165-175): on success the frame reaches
the peer (logged); sending to a dead or closed socket raises, leaving the
state unchanged and returning `false`. -/
def sendMessage (dead : List Nat) (st : ServerState) (sock : Nat)
    (msg : List Char) : ServerState × Bool :=
  if sock ∈ dead ∨ sock ∈ st.closed then (st, false)
  else ({ st with log := st.log ++ [(sock, msg)] }, true)

/-- The sweep of `remove_client` over `self.groups` (server.py lines 388-393):
remove the socket from each group it is a member of, deleting a group that
becomes empty.  A group the socket is not in is kept as is -- including a
group that is already empty. -/
def purgeSock (s : Nat) : List (List Char × List Nat) → List (List Char × List Nat)
  | [] => []
  | (g, ms) :: rest =>
    if s ∈ ms then
      let ms' := ms.erase s
      if ms' = [] then purgeSock s rest else (g, ms') :: purgeSock s rest
    else (g, ms) :: purgeSock s rest

mutual

/-- The `for sock in snapshot: if sock != exclude: try send except
remove_client(sock)` loop shared by `broadcast_message` (server.py lines
199-206, where the snapshot is `list(self.clients.keys())`) and
`send_group_message` (lines 254-262, where it is the member list).  `fuel`
bounds the depth of nested `remove_client` cascades (each nested level
consumes one unit; the Python recursion is finite because every
`remove_client` strictly shrinks `self.clients`). -/
def broadcastLoop (dead : List Nat) (msg : List Char) (ex : Option Nat)
    (fuel : Nat) (snapshot : List Nat) (st : ServerState) : ServerState :=
  match snapshot with
  | [] => st
  | sock :: rest =>
    if some sock = ex then broadcastLoop dead msg ex fuel rest st
    else
      match sendMessage dead st sock msg with
      | (st1, true) => broadcastLoop dead msg ex fuel rest st1
      | (st1, false) =>
        broadcastLoop dead msg ex fuel rest (removeClient dead fuel st1 sock)
termination_by (fuel, snapshot.length + 1)
decreasing_by
  all_goals first
  | exact Prod.Lex.right _ (by simp only [List.length_cons]; omega)
  | exact Prod.Lex.left _ _ (by omega)

/-- `remove_client` (server.py lines 382-407): if the socket is registered,
purge it from all groups, delete it from `self.clients`, close its socket,
and broadcast a leave notice to the remaining clients (no exclusion). -/
def removeClient (dead : List Nat) (fuel : Nat) (st : ServerState)
    (s : Nat) : ServerState :=
  match st.clients.lookup s with
  | none => st
  | some info =>
    let st1 : ServerState :=
      { clients := st.clients.eraseP (fun p => p.1 == s),
        groups := purgeSock s st.groups,
        closed := st.closed ++ [s],
        log := st.log }
    match fuel with
    | 0 => st1
    | fuel' + 1 =>
      broadcastLoop dead (info.username ++ " has left".toList) none fuel'
        (st1.clients.map Prod.fst) st1
termination_by (fuel, 0)
decreasing_by
  all_goals first
  | exact Prod.Lex.right _ (by simp only [List.length_cons]; omega)
  | exact Prod.Lex.left _ _ (by omega)

end

/-- `broadcast_message` (server.py lines 199-206): iterate a snapshot of the
registered sockets, skipping `exclude_socket`; a failed send removes that
client and the loop continues. -/
def broadcastMessage (dead : List Nat) (fuel : Nat) (st : ServerState)
    (msg : List Char) (ex : Option Nat) : ServerState :=
  broadcastLoop dead msg ex fuel (st.clients.map Prod.fst) st

/-- `unicast_message` (server.py lines 208-222): linear scan for the first
registered connection with the target username other than the sender; send
to it (a failure removes that client, swallowed); otherwise reply
`User <name> not found` (name in single quotes) to the sender -- that reply can itself raise. -/
def unicastMessage (dead : List Nat) (fuel : Nat) (st : ServerState)
    (msg : List Char) (target : List Char) (ex : Option Nat) :
    ServerState × Bool :=
  match st.clients.find? (fun p => p.2.username == target && some p.1 != ex) with
  | some p =>
    match sendMessage dead st p.1 msg with
    | (st1, true) => (st1, true)
    | (st1, false) => (removeClient dead fuel st1 p.1, true)
  | none =>
    match ex with
    | some e =>
      sendMessage dead st e ("User ".toList ++ sglq ++ target ++ sglq ++ " not found".toList)
    | none => (st, true)

/-- In-place update of the member list of one group (`self.groups[name] = ms` via
mutation, preserving dict order). -/
def setGroup (name : List Char) (ms : List Nat) :
    List (List Char × List Nat) → List (List Char × List Nat)
  | [] => []
  | (g, old) :: rest =>
    if g = name then (g, ms) :: rest else (g, old) :: setGroup name ms rest

/-- `join_group` (server.py lines 224-235): create the group if absent,
append the socket if it is not a member (the append happens before the
`self.clients[sock]` lookup and the confirmation send, so it survives a
raise), else reply `Already in group`. -/
def joinGroup (dead : List Nat) (st : ServerState) (sock : Nat)
    (name : List Char) : ServerState × Bool :=
  let groups0 :=
    if (st.groups.lookup name).isNone then st.groups ++ [(name, [])] else st.groups
  let ms := (groups0.lookup name).getD []
  if sock ∈ ms then
    sendMessage dead { st with groups := groups0 } sock
      ("Already in group ".toList ++ sglq ++ name ++ sglq)
  else
    let st1 := { st with groups := setGroup name (ms ++ [sock]) groups0 }
    match st.clients.lookup sock with
    | none => (st1, false)
    | some _ =>
      sendMessage dead st1 sock ("Joined group ".toList ++ sglq ++ name ++ sglq)

/-- `leave_group` (server.py lines 237-252): remove the socket from the
group, send the confirmation, and only after a successful send delete the
group if it became empty (the line-247 emptiness check runs after the send, so
a raised send skips the deletion). -/
def leaveGroup (dead : List Nat) (st : ServerState) (sock : Nat)
    (name : List Char) : ServerState × Bool :=
  match st.groups.lookup name with
  | some ms =>
    if sock ∈ ms then
      let st1 := { st with groups := setGroup name (ms.erase sock) st.groups }
      match st.clients.lookup sock with
      | none => (st1, false)
      | some _ =>
        match sendMessage dead st1 sock ("Left group ".toList ++ sglq ++ name ++ sglq) with
        | (st2, true) =>
          (if ms.erase sock = [] then
             { st2 with groups := st2.groups.eraseP (fun p => p.1 == name) }
           else st2, true)
        | (st2, false) => (st2, false)
    else sendMessage dead st sock ("Not in group ".toList ++ sglq ++ name ++ sglq)
  | none =>
    sendMessage dead st sock ("Group ".toList ++ sglq ++ name ++ sglq ++ " does not exist".toList)

/-- `send_group_message` (server.py lines 254-265): run the send loop over
the member list (the Python loop iterates the live list, not a copy; a
mid-loop removal mutating it is not exercised by any claim), else reply that
the group does not exist. -/
def sendGroupMessage (dead : List Nat) (fuel : Nat) (st : ServerState)
    (msg : List Char) (name : List Char) (ex : Option Nat) :
    ServerState × Bool :=
  match st.groups.lookup name with
  | some ms => (broadcastLoop dead msg ex fuel ms st, true)
  | none =>
    match ex with
    | some e =>
      sendMessage dead st e ("Group ".toList ++ sglq ++ name ++ sglq ++ " does not exist".toList)
    | none => (st, true)

/-- `list_users` (server.py lines 365-369). -/
def listUsers (dead : List Nat) (st : ServerState) (sock : Nat) :
    ServerState × Bool :=
  let usernames := st.clients.map (fun p => p.2.username)
  sendMessage dead st sock
    ("Connected users (".toList ++ (toString usernames.length).toList
      ++ "): ".toList ++ List.intercalate (", ".toList) usernames)

/-- The text `list_groups` (server.py lines 371-380) sends when groups
exist: one line per group with the member count and names, where the names
are the usernames of members still present in `self.clients`. -/
def listGroupsText (st : ServerState) : List Char :=
  List.intercalate ("\n".toList)
    (st.groups.map (fun g =>
      let memberNames :=
        g.2.filterMap (fun s => (st.clients.lookup s).map (fun i => i.username))
      g.1 ++ " (".toList ++ (toString memberNames.length).toList
        ++ " members): ".toList ++ List.intercalate (", ".toList) memberNames))

/-- `list_groups` (server.py lines 371-380). -/
def listGroups (dead : List Nat) (st : ServerState) (sock : Nat) :
    ServerState × Bool :=
  if st.groups = [] then sendMessage dead st sock ("No groups exist".toList)
  else sendMessage dead st sock (listGroupsText st)

/-- ASCII approximation of the Python `str` whitespace test, covering the
characters the protocol traffic uses. -/
def pyIsSpace (c : Char) : Bool :=
  c.toNat == 32 || (decide (9 ≤ c.toNat) && decide (c.toNat ≤ 13))

/-- `str.strip()` (ASCII whitespace). -/
def pyStrip (l : List Char) : List Char :=
  ((l.dropWhile pyIsSpace).reverse.dropWhile pyIsSpace).reverse

/-- Split a string at its first space character, if any. -/
def splitFirst : List Char → Option (List Char × List Char)
  | [] => none
  | c :: cr =>
    if c = ' ' then some ([], cr)
    else
      match splitFirst cr with
      | some (a, r) => some (c :: a, r)
      | none => none

/-- `str.split(sp, 2)` for a space separator sp: at most two splits on single spaces, keeping empty
parts and leaving the remainder (spaces included) as the last part. -/
def pySplit2 (l : List Char) : List (List Char) :=
  match splitFirst l with
  | none => [l]
  | some (a, rest) =>
    match splitFirst rest with
    | none => [a, rest]
    | some (b, rest2) => [a, b, rest2]

/-- `str.upper()` restricted to ASCII (all command keywords are ASCII). -/
def pyUpper (l : List Char) : List Char :=
  l.map Char.toUpper

/-- `handle_client_message` (server.py lines 92-163) given the decoded text
of one received frame (the `receive_message` returning `None` on disconnect
happens before this point).  An empty text also triggers removal (`if not
message`).  The whole dispatch runs inside `try/except`, and any escaped
exception removes the sender.  The `/LISTFILES` and `/DOWNLOAD` branches
drive the file-storage and file-transfer collaborators (the latter modelled
separately by `sendFileUdp`); their only effect on the routing state is
replies to the requesting socket, left out of this model. -/
def handleClientMessage (fuel : Nat) (dead : List Nat) (st : ServerState)
    (sock : Nat) (msg : List Char) : ServerState :=
  if msg = [] then removeClient dead fuel st sock
  else
    match st.clients.lookup sock with
    | none => st
    | some info =>
      let username := info.username
      let parts := pySplit2 (pyStrip msg)
      let command := pyUpper (parts.getD 0 [])
      let step : ServerState × Bool :=
        if command = "/LEAVE".toList then (removeClient dead fuel st sock, true)
        else if command = "/BROADCAST".toList then
          (if 1 < parts.length then
             broadcastMessage dead fuel st
               ("[BROADCAST] ".toList ++ username ++ ": ".toList ++ parts.getD 1 [])
               (some sock)
           else st, true)
        else if command = "/UNICAST".toList then
          if 3 ≤ parts.length then
            unicastMessage dead fuel st
              ("[UNICAST] ".toList ++ username ++ ": ".toList ++ parts.getD 2 [])
              (parts.getD 1 []) (some sock)
          else sendMessage dead st sock ("Usage: /UNICAST <username> <message>".toList)
        else if command = "/JOINGROUP".toList then
          if 1 < parts.length then joinGroup dead st sock (parts.getD 1 [])
          else sendMessage dead st sock ("Usage: /JOINGROUP <group_name>".toList)
        else if command = "/LEAVEGROUP".toList then
          if 1 < parts.length then leaveGroup dead st sock (parts.getD 1 [])
          else sendMessage dead st sock ("Usage: /LEAVEGROUP <group_name>".toList)
        else if command = "/GROUP".toList then
          if 3 ≤ parts.length then
            sendGroupMessage dead fuel st
              ("[GROUP:".toList ++ parts.getD 1 [] ++ "] ".toList ++ username
                ++ ": ".toList ++ parts.getD 2 [])
              (parts.getD 1 []) (some sock)
          else sendMessage dead st sock ("Usage: /GROUP <group_name> <message>".toList)
        else if command = "/LISTFILES".toList then (st, true)
        else if command = "/DOWNLOAD".toList then (st, true)
        else if command = "/LISTUSERS".toList then listUsers dead st sock
        else if command = "/LISTGROUPS".toList then listGroups dead st sock
        else
          (broadcastMessage dead fuel st (username ++ ": ".toList ++ msg) (some sock), true)
      if step.2 then step.1 else removeClient dead fuel step.1 sock

/-! ## Datagram-mode send path (`Server.send_file_udp`, server.py 327-363) -/

/-- What one `send_file_udp` session emits, given the TCP port of the server, the
address of the requesting client, the file name and its bytes: the control frames
sent over TCP (in order), the datagrams, and the datagram destination
address `(client_address[0], self.port + 1)`. -/
structure UdpSendResult where
  controlMsgs : List (List Char)
  datagrams : List (List Nat)
  dest : Nat × Nat
deriving DecidableEq

/-- `send_file_udp` (server.py lines 327-363), with socket writes and the
file read collected into a result record. -/
def sendFileUdp (serverPort : Nat) (addr : Nat) (filename : List Char)
    (file : List Nat) : UdpSendResult :=
  { controlMsgs :=
      [ "DOWNLOAD_START_UDP:".toList ++ filename ++ ":".toList
          ++ (toString file.length).toList,
        "UDP_PORT:".toList ++ (toString (serverPort + 1)).toList,
        "DOWNLOAD_COMPLETE_UDP:".toList ++ filename ++ ":".toList
          ++ (toString file.length).toList ],
    datagrams := udpDatagrams file,
    dest := (addr, serverPort + 1) }
/-! ## Basic lemmas -/

theorem pack32_length (n : Nat) : (pack32 n).length = 4 := rfl

theorem unpack32_pack32 {n : Nat} (h : n < 4294967296) :
    unpack32 (pack32 n) = n := by
  simp only [pack32, unpack32, List.foldl]
  omega

theorem take4_pack32_append (x : Nat) (r : List Nat) :
    (pack32 x ++ r).take 4 = pack32 x := rfl

theorem drop4_pack32_append (x : Nat) (r : List Nat) :
    (pack32 x ++ r).drop 4 = r := rfl

theorem lookup_eq_none_of_not_mem_keys {β : Type} {k : Nat}
    {l : List (Nat × β)} (h : k ∉ l.map Prod.fst) : l.lookup k = none := by
  induction l with
  | nil => rfl
  | cons p rest ih =>
    simp only [List.map_cons, List.mem_cons, not_or] at h
    simp only [List.lookup]
    have : (k == p.1) = false := by
      simp only [beq_eq_false_iff_ne, ne_eq]
      exact h.1
    rw [show (p : Nat × β) = (p.1, p.2) from rfl]
    simp only [List.lookup, this]
    exact ih h.2

theorem lookup_eq_some_of_mem_nodup {β : Type} {k : Nat} {v : β}
    {l : List (Nat × β)} (hm : (k, v) ∈ l) (hn : (l.map Prod.fst).Nodup) :
    l.lookup k = some v := by
  induction l with
  | nil => simp at hm
  | cons p rest ih =>
    simp only [List.map_cons, List.nodup_cons] at hn
    rcases List.mem_cons.mp hm with h | h
    · subst h
      simp [List.lookup]
    · have hk : k ≠ p.1 := by
        intro he
        exact hn.1 (he ▸ (List.mem_map.mpr ⟨(k, v), h, rfl⟩))
      rw [show (p : Nat × β) = (p.1, p.2) from rfl]
      simp only [List.lookup, beq_eq_false_iff_ne.mpr hk]
      exact ih h hn.2

theorem lookup_append_single {β : Type} {k : Nat} {v : β}
    {l : List (Nat × β)} (h : l.lookup k = none) :
    (l ++ [(k, v)]).lookup k = some v := by
  induction l with
  | nil => simp [List.lookup]
  | cons p rest ih =>
    rw [show (p : Nat × β) = (p.1, p.2) from rfl] at h ⊢
    simp only [List.lookup] at h ⊢
    cases hk : (k == p.1) with
    | true => simp [hk] at h
    | false => simp only [hk] at h ⊢; simpa using ih h
/-! ## UTF-8 round trip -/

theorem utf8Encode_cons (c : Nat) (cs : List Nat) :
    utf8Encode (c :: cs) = utf8EncodeChar c ++ utf8Encode cs := by
  simp only [utf8Encode, List.map_cons, List.flatten_cons]

set_option maxHeartbeats 1000000 in
theorem utf8DecodeChar_encodeChar {c : Nat} (h : ValidScalar c) (rest : List Nat) :
    utf8DecodeChar (utf8EncodeChar c ++ rest) = some (c, (utf8EncodeChar c).length) := by
  rcases h with ⟨hmax, hsur⟩
  by_cases h1 : c < 128
  · simp only [utf8EncodeChar, if_pos h1, List.cons_append, List.nil_append, utf8DecodeChar,
      List.length_cons, List.length_nil]
  · by_cases h2 : c < 2048
    · simp only [utf8EncodeChar, if_neg h1, if_pos h2, List.cons_append, List.nil_append,
        utf8DecodeChar, List.getD_cons_zero, List.getD_cons_succ, List.length_cons,
        List.length_nil]
      have e1 : ¬(192 + c / 64 < 128) := by omega
      have e2 : ¬(192 + c / 64 < 194) := by omega
      have e3 : 192 + c / 64 < 224 := by omega
      have e4 : 128 ≤ 128 + c % 64 ∧ 128 + c % 64 < 192 := by omega
      simp only [if_neg e1, if_neg e2, if_pos e3, if_pos e4]
      have hv : (192 + c / 64 - 192) * 64 + (128 + c % 64 - 128) = c := by omega
      rw [hv]
    · by_cases h3 : c < 65536
      · simp only [utf8EncodeChar, if_neg h1, if_neg h2, if_pos h3, List.cons_append,
          List.nil_append, utf8DecodeChar, List.getD_cons_zero, List.getD_cons_succ,
          List.length_cons, List.length_nil]
        have e1 : ¬(224 + c / 4096 < 128) := by omega
        have e2 : ¬(224 + c / 4096 < 194) := by omega
        have e3 : ¬(224 + c / 4096 < 224) := by omega
        have e4 : 224 + c / 4096 < 240 := by omega
        have e5 : (128 ≤ 128 + c / 64 % 64 ∧ 128 + c / 64 % 64 < 192) ∧
            128 ≤ 128 + c % 64 ∧ 128 + c % 64 < 192 := by omega
        simp only [if_neg e1, if_neg e2, if_neg e3, if_pos e4, if_pos e5]
        have hv : (224 + c / 4096 - 224) * 4096 + (128 + c / 64 % 64 - 128) * 64
            + (128 + c % 64 - 128) = c := by omega
        rw [hv]
        have e6 : 2048 ≤ c ∧ ¬(55296 ≤ c ∧ c < 57344) := ⟨by omega, hsur⟩
        simp only [if_pos e6]
      · simp only [utf8EncodeChar, if_neg h1, if_neg h2, if_neg h3, List.cons_append,
          List.nil_append, utf8DecodeChar, List.getD_cons_zero, List.getD_cons_succ,
          List.length_cons, List.length_nil]
        have e1 : ¬(240 + c / 262144 < 128) := by omega
        have e2 : ¬(240 + c / 262144 < 194) := by omega
        have e3 : ¬(240 + c / 262144 < 224) := by omega
        have e4 : ¬(240 + c / 262144 < 240) := by omega
        have e5 : 240 + c / 262144 < 245 := by omega
        have e6 : (128 ≤ 128 + c / 4096 % 64 ∧ 128 + c / 4096 % 64 < 192) ∧
            (128 ≤ 128 + c / 64 % 64 ∧ 128 + c / 64 % 64 < 192) ∧
            128 ≤ 128 + c % 64 ∧ 128 + c % 64 < 192 := by omega
        simp only [if_neg e1, if_neg e2, if_neg e3, if_neg e4, if_pos e5, if_pos e6]
        have hv : (240 + c / 262144 - 240) * 262144 + (128 + c / 4096 % 64 - 128) * 4096
            + (128 + c / 64 % 64 - 128) * 64 + (128 + c % 64 - 128) = c := by omega
        rw [hv]
        have e7 : 65536 ≤ c ∧ c < 1114112 := ⟨by omega, hmax⟩
        simp only [if_pos e7]

theorem utf8Decode_encodeChar {c : Nat} (h : ValidScalar c) (rest : List Nat) :
    utf8Decode (utf8EncodeChar c ++ rest)
      = (utf8Decode rest).map (fun cs => c :: cs) := by
  have hlen : 1 ≤ (utf8EncodeChar c).length := by
    unfold utf8EncodeChar; split_ifs <;> simp
  obtain ⟨b, bs, hbs⟩ : ∃ b bs, utf8EncodeChar c ++ rest = b :: bs := by
    cases he : utf8EncodeChar c ++ rest with
    | nil =>
      exfalso
      have := congrArg List.length he
      simp only [List.length_append, List.length_nil] at this
      omega
    | cons b bs => exact ⟨b, bs, rfl⟩
  rw [hbs, utf8Decode.eq_def]
  split
  · rename_i hnil
    exfalso
    rw [← hbs] at hnil
    have := congrArg List.length hnil
    simp only [List.length_append, List.length_nil] at this
    omega
  · rename_i b' bs' hcons
    rw [← hbs] at hcons
    rw [← hcons]
    split
    · rename_i hnone
      rw [utf8DecodeChar_encodeChar h rest] at hnone
      cases hnone
    · rename_i c1 k hsome
      rw [utf8DecodeChar_encodeChar h rest] at hsome
      injection hsome with hpair
      injection hpair with hc1 hk
      subst hc1
      subst hk
      rw [List.drop_left]

theorem utf8Decode_utf8Encode {text : List Nat}
    (hv : ∀ c ∈ text, ValidScalar c) :
    utf8Decode (utf8Encode text) = some text := by
  induction text with
  | nil => rw [show utf8Encode [] = [] from rfl, utf8Decode.eq_def]
  | cons c cs ih =>
    rw [utf8Encode_cons, utf8Decode_encodeChar (hv c (List.mem_cons_self c cs)),
      ih (fun x hx => hv x (List.mem_cons_of_mem c hx))]
    rfl
/-! ## Framing lemmas -/

theorem recvExactly_exact (n : Nat) (acc tail rest : List Nat)
    (h : acc.length + tail.length = n) :
    recvExactly n acc (tail ++ rest) = some (acc ++ tail, rest) := by
  cases tail with
  | nil =>
    rw [recvExactly]
    simp only [List.length_nil, Nat.add_zero] at h
    simp [h]
  | cons t ts =>
    rw [recvExactly]
    have hlt : acc.length < n := by simp only [List.length_cons] at h; omega
    have htake : n - acc.length = (t :: ts).length := by omega
    rw [dif_pos hlt]
    simp only [htake, List.take_left]
    have hne : ¬(t :: ts = ([] : List Nat)) := by simp
    rw [dif_neg hne, List.drop_left]
    rw [recvExactly]
    have hge : ¬((acc ++ t :: ts).length < n) := by
      simp only [List.length_append]; omega
    rw [dif_neg hge]

theorem recvExactly_short (n : Nat) (acc stream : List Nat)
    (h : acc.length + stream.length < n) :
    recvExactly n acc stream = none := by
  rw [recvExactly]
  have hlt : acc.length < n := by omega
  rw [dif_pos hlt]
  cases stream with
  | nil => simp
  | cons s ss =>
    have hss : acc.length + ss.length + 1 < n := by
      simp only [List.length_cons] at h; omega
    have htake : (s :: ss).take (n - acc.length) = s :: ss :=
      List.take_of_length_le (by simp only [List.length_cons]; omega)
    simp only [htake]
    have hne : ¬(s :: ss = ([] : List Nat)) := by simp
    rw [dif_neg hne]
    have hdrop : (s :: ss).drop (n - acc.length) = [] :=
      List.drop_of_length_le (by simp only [List.length_cons]; omega)
    rw [hdrop, recvExactly]
    have hlt2 : (acc ++ s :: ss).length < n := by
      simp only [List.length_append, List.length_cons]; omega
    rw [dif_pos hlt2]
    simp

theorem receiveMessage_frame {text : List Nat} (rest : List Nat)
    (hv : ∀ c ∈ text, ValidScalar c)
    (hlen : (utf8Encode text).length < 4294967296) :
    receiveMessage (pack32 (utf8Encode text).length ++ utf8Encode text ++ rest)
      = some (text, rest) := by
  rw [List.append_assoc, receiveMessage]
  simp only [take4_pack32_append, drop4_pack32_append, pack32_length]
  rw [if_neg (by omega)]
  rw [unpack32_pack32 hlen]
  have := recvExactly_exact (utf8Encode text).length [] (utf8Encode text) rest (by simp)
  simp only [List.nil_append] at this
  rw [this]
  simp only [utf8Decode_utf8Encode hv]

/-! ## C2 -/

/-- C2: for every text message (of Unicode scalar values, with UTF-8 byte
length below `2^32` so that `struct.pack(!I, ...)` succeeds), the frame
`send_message` writes is exactly the 4-byte big-endian UTF-8 byte length
followed by the UTF-8 bytes, and `receive_message` applied to a stream
beginning with that frame returns the original text and consumes exactly the
frame. -/
theorem c2_frame_roundtrip (text rest : List Nat)
    (hv : ∀ c ∈ text, ValidScalar c)
    (hlen : (utf8Encode text).length < 4294967296) :
    sendMessageBytes text
      = some (pack32 (utf8Encode text).length ++ utf8Encode text) ∧
    receiveMessage ((pack32 (utf8Encode text).length ++ utf8Encode text) ++ rest)
      = some (text, rest) := by
  constructor
  · simp [sendMessageBytes, hlen]
  · exact receiveMessage_frame rest hv hlen

/-- C2 witness: the round trip at the concrete text Hi with two stray
bytes left on the stream. -/
theorem c2_frame_roundtrip_witness :
    (∀ c ∈ [72, 105], ValidScalar c) ∧
    (utf8Encode [72, 105]).length < 4294967296 ∧
    (sendMessageBytes [72, 105]
        = some (pack32 (utf8Encode [72, 105]).length ++ utf8Encode [72, 105]) ∧
      receiveMessage ((pack32 (utf8Encode [72, 105]).length ++ utf8Encode [72, 105]) ++ [9, 9])
        = some ([72, 105], [9, 9])) :=
  ⟨by decide, by decide, c2_frame_roundtrip [72, 105] [9, 9] (by decide) (by decide)⟩

/-! ## C6 -/

/-- C6 counterexample: a stream that ends before a complete 4-byte length
prefix and a stream that ends mid-payload (prefix declares 3 bytes, only one
arrives) produce the identical outcome `none` -- `receive_message` returns
`None` in both cases, so there is no distinct `ProtocolError` signal. -/
theorem c6_counterexample :
    receiveMessage [7, 7] = none ∧
    receiveMessage (pack32 3 ++ [65]) = none ∧
    receiveMessage [7, 7] = receiveMessage (pack32 3 ++ [65]) := by
  have h2 : receiveMessage (pack32 3 ++ [65]) = none := by
    rw [receiveMessage]
    simp only [take4_pack32_append, drop4_pack32_append, pack32_length]
    rw [if_neg (by omega)]
    rw [unpack32_pack32 (by omega)]
    rw [recvExactly_short 3 [] [65] (by simp)]
  exact ⟨by decide, h2, by rw [h2]; decide⟩

/-- C6 amended: `receive_message` does not distinguish the two failure
modes: a stream that ends before a complete 4-byte length prefix and a
stream that ends after the prefix but before the declared number of payload
bytes both return the same `none` outcome. -/
theorem c6_truncation_returns_none :
    (∀ s : List Nat, s.length < 4 → receiveMessage s = none) ∧
    (∀ s : List Nat, 4 ≤ s.length → s.length - 4 < unpack32 (s.take 4) →
      receiveMessage s = none) := by
  constructor
  · intro s hs
    rw [receiveMessage]
    rw [if_pos (by simp only [List.length_take]; omega)]
  · intro s hs hshort
    rw [receiveMessage]
    rw [if_neg (by simp only [List.length_take]; omega)]
    simp only [recvExactly_short (unpack32 (s.take 4)) [] (s.drop 4)
      (by simp only [List.length_nil, List.length_drop]; omega)]

/-- C6 witness: the amended statement at the two concrete streams of the
counterexample. -/
theorem c6_truncation_returns_none_witness :
    ([7, 7] : List Nat).length < 4 ∧
    4 ≤ (pack32 3 ++ [65]).length ∧
    (pack32 3 ++ [65]).length - 4 < unpack32 ((pack32 3 ++ [65]).take 4) ∧
    receiveMessage [7, 7] = none ∧
    receiveMessage (pack32 3 ++ [65]) = none :=
  ⟨by decide, by decide, by decide,
    c6_truncation_returns_none.1 [7, 7] (by decide),
    c6_truncation_returns_none.2 (pack32 3 ++ [65]) (by decide) (by decide)⟩

/-! ## C9 -/

/-- C9: the datagram receive path is idempotent: a datagram whose chunk
index is already stored leaves the chunk map and the received-byte counter
unchanged, so delivering any datagram twice gives the same state (and hence
the same materialized file) as delivering it once. -/
theorem c9_duplicate_datagram_ignored (st : RecvState) (data : List Nat)
    (expected : Nat) :
    recvDatagram (recvDatagram st data) data = recvDatagram st data ∧
    ((st.chunks.lookup (unpack32 (data.take 4))).isSome → recvDatagram st data = st) ∧
    materializeFile expected (recvDatagram (recvDatagram st data) data)
      = materializeFile expected (recvDatagram st data) := by
  by_cases h8 : 8 ≤ data.length
  · by_cases hnew : (st.chunks.lookup (unpack32 (data.take 4))).isNone
    · have hstep : recvDatagram st data =
          { chunks := st.chunks ++ [(unpack32 (data.take 4),
              (data.drop 8).take (unpack32 ((data.drop 4).take 4)))],
            received := st.received
              + ((data.drop 8).take (unpack32 ((data.drop 4).take 4))).length } := by
        simp only [recvDatagram, if_pos h8, if_pos hnew]
      have hdup : recvDatagram (recvDatagram st data) data = recvDatagram st data := by
        conv_lhs => rw [hstep]
        simp only [recvDatagram, if_pos h8,
          lookup_append_single (Option.isNone_iff_eq_none.mp hnew),
          Option.isNone_some, Bool.false_eq_true, if_false]
        rw [if_pos hnew]
      refine ⟨hdup, ?_, by rw [hdup]⟩
      intro hsome
      rw [Option.isNone_iff_eq_none.mp hnew] at hsome
      cases hsome
    · have hid : recvDatagram st data = st := by
        simp only [recvDatagram, if_pos h8, if_neg hnew]
      exact ⟨by rw [hid, hid], fun _ => hid, by rw [hid, hid]⟩
  · have hid : recvDatagram st data = st := by
      simp only [recvDatagram, if_neg h8]
    exact ⟨by rw [hid, hid], fun _ => hid, by rw [hid, hid]⟩

/-- C9 witness: a duplicate of chunk 0 is ignored (the state with chunk 0
stored is unchanged), and delivering a fresh datagram twice equals
delivering it once. -/
theorem c9_duplicate_datagram_ignored_witness :
    ((RecvState.mk [(0, [5])] 1).chunks.lookup
        (unpack32 ((mkDatagram (0, [9])).take 4))).isSome = true ∧
    recvDatagram (RecvState.mk [(0, [5])] 1) (mkDatagram (0, [9]))
      = RecvState.mk [(0, [5])] 1 ∧
    recvDatagram (recvDatagram (RecvState.mk [] 0) (mkDatagram (3, [1, 2])))
        (mkDatagram (3, [1, 2]))
      = recvDatagram (RecvState.mk [] 0) (mkDatagram (3, [1, 2])) :=
  ⟨by decide,
    (c9_duplicate_datagram_ignored (RecvState.mk [(0, [5])] 1)
      (mkDatagram (0, [9])) 1).2.1 (by decide),
    (c9_duplicate_datagram_ignored (RecvState.mk [] 0)
      (mkDatagram (3, [1, 2])) 1).1⟩
/-! ## Chunking lemmas -/

theorem udpPairs_eq (cs : Nat) (hcs : 0 < cs) (l : List Nat) (num : Nat) :
    udpPairs cs num l
      = (List.range ((l.length + cs - 1) / cs)).map
          (fun j => (num + j, chunkAt cs l j)) := by
  by_cases hl : l = []
  · subst hl
    rw [udpPairs]
    rw [dif_pos (Or.inl rfl)]
    rw [List.length_nil, Nat.zero_add, Nat.div_eq_of_lt (by omega)]
    rfl
  · rw [udpPairs]
    rw [dif_neg (by push_neg; exact ⟨hl, by omega⟩)]
    have hlen : 1 ≤ l.length := List.length_pos.mpr hl
    have ih := udpPairs_eq cs hcs (l.drop cs) (num + 1)
    rw [ih]
    have key : ∀ m : Nat, 1 ≤ m → (m + cs - 1) / cs = (m - 1) / cs + 1 := by
      intro m hm1
      rw [Nat.div_eq_sub_div hcs (by omega)]
      congr 2
      omega
    have hm : (l.length + cs - 1) / cs = ((l.drop cs).length + cs - 1) / cs + 1 := by
      rw [List.length_drop, key l.length hlen]
      rcases lt_or_le cs l.length with hlt | hle
      · rw [key (l.length - cs) (by omega)]
        rw [Nat.div_eq_sub_div hcs (show cs ≤ l.length - 1 by omega)]
        congr 3
        omega
      · rw [Nat.sub_eq_zero_of_le hle, Nat.zero_add]
        rw [Nat.div_eq_of_lt (show l.length - 1 < cs by omega)]
        rw [Nat.div_eq_of_lt (show cs - 1 < cs by omega)]
    rw [hm, List.range_succ_eq_map]
    rw [List.map_cons, List.map_map]
    have hhead : (num + 0, chunkAt cs l 0) = (num, l.take cs) := by
      simp [chunkAt]
    rw [hhead]
    have htail : ∀ j : Nat,
        ((fun j => (num + j, chunkAt cs l j)) ∘ Nat.succ) j
          = (fun j => (num + 1 + j, chunkAt cs (l.drop cs) j)) j := by
      intro j
      simp only [Function.comp_apply, chunkAt, List.drop_drop]
      have h1 : num + Nat.succ j = num + 1 + j := by omega
      have h2 : cs * Nat.succ j = cs + cs * j := by
        rw [Nat.mul_succ]; omega
      rw [h1, h2]
    rw [funext htail]
termination_by l.length
decreasing_by
  have h1 : 0 < l.length := List.length_pos.mpr hl
  simp only [List.length_drop]; omega

theorem chunkAt_length (cs : Nat) (l : List Nat) (i : Nat) :
    (chunkAt cs l i).length = min cs (l.length - cs * i) := by
  simp [chunkAt]

theorem cs_mul_lt_of_lt_ceil {cs i : Nat} {l : List Nat} (hcs : 0 < cs)
    (hi : i < (l.length + cs - 1) / cs) : cs * i < l.length := by
  rcases Nat.eq_zero_or_pos l.length with h0 | h1
  · rw [h0, Nat.zero_add, Nat.div_eq_of_lt (by omega)] at hi
    omega
  · have hq := Nat.div_mul_le_self (l.length + cs - 1) cs
    have h2 : (i + 1) * cs ≤ (l.length + cs - 1) / cs * cs :=
      Nat.mul_le_mul_right cs (by omega)
    have h3 : (i + 1) * cs = i * cs + cs := by rw [Nat.succ_mul]
    have h4 : cs * i = i * cs := Nat.mul_comm cs i
    omega

theorem ceil_mul_ge {cs : Nat} (hcs : 0 < cs) (m : Nat) :
    m ≤ cs * ((m + cs - 1) / cs) := by
  have hd := Nat.div_add_mod (m + cs - 1) cs
  have hm := Nat.mod_lt (m + cs - 1) hcs
  omega

theorem flatten_range_chunkAt (cs : Nat) (l : List Nat) (j : Nat) :
    ((List.range j).map (chunkAt cs l)).flatten = l.take (cs * j) := by
  induction j with
  | zero => simp
  | succ j ih =>
    rw [List.range_succ, List.map_append, List.flatten_append, ih]
    simp only [List.map_cons, List.map_nil, List.flatten_cons, List.flatten_nil,
      List.append_nil]
    rw [Nat.mul_succ, List.take_add]
    rfl

theorem take_ceil_eq {cs : Nat} (hcs : 0 < cs) (l : List Nat) :
    l.take (cs * ((l.length + cs - 1) / cs)) = l :=
  List.take_of_length_le (ceil_mul_ge hcs l.length)

theorem chunkAt_shift (cs : Nat) (l : List Nat) (a j : Nat) :
    chunkAt cs l (a + j) = chunkAt cs (l.drop (cs * a)) j := by
  simp only [chunkAt, List.drop_drop]
  have : cs * a + cs * j = cs * (a + j) := by rw [Nat.mul_add]
  rw [this]

/-! ## Datagram parsing -/

theorem recvDatagram_mk (st : RecvState) (i : Nat) (c : List Nat)
    (hi : i < 4294967296) (hc : c.length < 4294967296) :
    recvDatagram st (mkDatagram (i, c))
      = if (st.chunks.lookup i).isNone then
          RecvState.mk (st.chunks ++ [(i, c)]) (st.received + c.length)
        else st := by
  have h8 : 8 ≤ (mkDatagram (i, c)).length := by
    simp [mkDatagram, pack32]
  have htake4 : (mkDatagram (i, c)).take 4 = pack32 i := rfl
  have hdrop4 : (mkDatagram (i, c)).drop 4 = pack32 c.length ++ c := rfl
  have hdrop8 : (mkDatagram (i, c)).drop 8 = c := by
    show ((pack32 i ++ (pack32 c.length ++ c)).drop 8) = c
    rfl
  simp only [recvDatagram, if_pos h8, htake4, hdrop4, hdrop8,
    take4_pack32_append, unpack32_pack32 hi, unpack32_pack32 hc,
    List.take_length]

/-! ## The receive loop on a complete permutation -/

theorem sumLens_nil : sumLens [] = 0 := rfl

theorem sumLens_cons (p : Nat × List Nat) (ps : List (Nat × List Nat)) :
    sumLens (p :: ps) = p.2.length + sumLens ps := by
  simp [sumLens]

theorem sumLens_append (a b : List (Nat × List Nat)) :
    sumLens (a ++ b) = sumLens a + sumLens b := by
  simp [sumLens]

theorem sumLens_perm {a b : List (Nat × List Nat)} (h : a.Perm b) :
    sumLens a = sumLens b := by
  unfold sumLens
  exact (h.map (fun p => p.2.length)).sum_eq

theorem sumLens_udpPairs {cs : Nat} (hcs : 0 < cs) (file : List Nat) :
    sumLens (udpPairs cs 0 file) = file.length := by
  rw [udpPairs_eq cs hcs file 0]
  unfold sumLens
  rw [List.map_map]
  have h1 : ((List.range ((file.length + cs - 1) / cs)).map
      (chunkAt cs file)).flatten.length = file.length := by
    rw [flatten_range_chunkAt, take_ceil_eq hcs]
  rw [List.length_flatten, List.map_map] at h1
  exact h1

theorem udpPairs_keys {cs : Nat} (hcs : 0 < cs) (file : List Nat) :
    (udpPairs cs 0 file).map Prod.fst
      = List.range ((file.length + cs - 1) / cs) := by
  rw [udpPairs_eq cs hcs file 0, List.map_map]
  have : ∀ j : Nat,
      (Prod.fst ∘ fun j => ((0 + j : Nat), chunkAt cs file j)) j = id j := by
    intro j; simp
  rw [funext this, List.map_id]

theorem udpPairs_mem {cs : Nat} (hcs : 0 < cs) {file : List Nat}
    {p : Nat × List Nat} (h : p ∈ udpPairs cs 0 file) :
    p.1 < (file.length + cs - 1) / cs ∧ p.2 = chunkAt cs file p.1 := by
  rw [udpPairs_eq cs hcs file 0] at h
  obtain ⟨j, hj, hpe⟩ := List.mem_map.mp h
  rw [List.mem_range] at hj
  rw [← hpe]
  simp [hj]

theorem mem_udpPairs_of_lt {cs : Nat} (hcs : 0 < cs) {file : List Nat}
    {i : Nat} (hi : i < (file.length + cs - 1) / cs) :
    (i, chunkAt cs file i) ∈ udpPairs cs 0 file := by
  rw [udpPairs_eq cs hcs file 0]
  exact List.mem_map.mpr ⟨i, List.mem_range.mpr hi, by simp⟩

set_option maxHeartbeats 1000000 in
theorem receiveFileLoop_complete {cs : Nat} (hcs : 0 < cs) (file : List Nat)
    (hfl : file.length < 4294967296) :
    ∀ (pend done : List (Nat × List Nat)),
      (done ++ pend).Perm (udpPairs cs 0 file) →
      receiveFileLoop file.length ((file.length + cs - 1) / cs)
          (RecvState.mk done (sumLens done))
          (pend.map (fun p => UdpEvent.datagram (mkDatagram p)))
        = (RecvState.mk (done ++ pend) (sumLens (done ++ pend)), true) := by
  intro pend
  induction pend with
  | nil =>
    intro done hperm
    rw [List.append_nil] at hperm ⊢
    have hsum : sumLens done = file.length := by
      rw [sumLens_perm hperm, sumLens_udpPairs hcs]
    rw [List.map_nil, receiveFileLoop]
    rw [if_neg (by simp only [hsum]; omega)]
  | cons p rest ih =>
    intro done hperm
    obtain ⟨i, c⟩ := p
    have hmem : (i, c) ∈ udpPairs cs 0 file :=
      hperm.subset (by simp)
    obtain ⟨hin, hcc⟩ := udpPairs_mem hcs hmem
    dsimp only at hin hcc
    have hclen : c.length = min cs (file.length - cs * i) := by
      rw [hcc]; exact chunkAt_length cs file i
    have hcsl : cs * i < file.length := cs_mul_lt_of_lt_ceil hcs hin
    have hcpos : 1 ≤ c.length := by omega
    have hi32 : i < 4294967296 := by
      have : i ≤ cs * i := Nat.le_mul_of_pos_left i hcs
      omega
    have hc32 : c.length < 4294967296 := by omega
    have hsum : sumLens done + (c.length + sumLens rest) = file.length := by
      have hq := sumLens_perm hperm
      rw [sumLens_append, sumLens_cons] at hq
      rw [sumLens_udpPairs hcs] at hq
      dsimp only at hq
      omega
    have hnd : ((done ++ (i, c) :: rest).map Prod.fst).Nodup := by
      rw [(hperm.map Prod.fst).nodup_iff, udpPairs_keys hcs]
      exact List.nodup_range _
    have hlookup : done.lookup i = none := by
      apply lookup_eq_none_of_not_mem_keys
      rw [List.map_append] at hnd
      have hdisj := (List.nodup_append.mp hnd).2.2
      intro hmemk
      exact hdisj hmemk (by simp)
    rw [List.map_cons, receiveFileLoop]
    rw [if_pos (by simp only; omega)]
    rw [recvDatagram_mk _ i c hi32 hc32]
    simp only [hlookup, Option.isNone_none, if_pos]
    have hstep : sumLens (done ++ [(i, c)]) = sumLens done + c.length := by
      simp [sumLens]
    rw [← hstep]
    have hpe : ((done ++ [(i, c)]) ++ rest).Perm (udpPairs cs 0 file) := by
      rw [List.append_assoc]
      simpa using hperm
    rw [ih (done ++ [(i, c)]) hpe]
    simp
/-! ## Materialization -/

theorem materialize_of_perm {cs : Nat} (hcs : 0 < cs) (file : List Nat)
    (pend : List (Nat × List Nat)) (r : Nat)
    (hperm : pend.Perm (udpPairs cs 0 file)) :
    materializeFile ((file.length + cs - 1) / cs) (RecvState.mk pend r) = file := by
  unfold materializeFile
  have hnd : (pend.map Prod.fst).Nodup := by
    rw [(hperm.map Prod.fst).nodup_iff, udpPairs_keys hcs]
    exact List.nodup_range _
  have hcongr : ∀ i ∈ List.range ((file.length + cs - 1) / cs),
      ((RecvState.mk pend r).chunks.lookup i).getD [] = chunkAt cs file i := by
    intro i hi
    rw [List.mem_range] at hi
    have hmem : (i, chunkAt cs file i) ∈ pend :=
      hperm.mem_iff.mpr (mem_udpPairs_of_lt hcs hi)
    dsimp only
    rw [lookup_eq_some_of_mem_nodup hmem hnd]
    rfl
  rw [List.map_congr_left hcongr]
  rw [flatten_range_chunkAt, take_ceil_eq hcs]

/-! ## C1 -/

/-- C1: if the `(chunk index, chunk)` pairs `send_file_udp` emits for a file
(of size below `2^32`, chunk size 1024 as in the code) are delivered as
datagrams exactly once each, in any order, then the receive loop exits with
all bytes accounted for, and the file the write-out loop materializes is
byte-for-byte the original file, with `expectedCount = (size + 1023) / 1024`
chunks. -/
theorem c1_reassembly_completeness (file : List Nat)
    (pend : List (Nat × List Nat))
    (hsize : file.length < 4294967296)
    (hperm : pend.Perm (udpPairs 1024 0 file)) :
    receiveFileLoop file.length ((file.length + 1023) / 1024) (RecvState.mk [] 0)
        (pend.map (fun p => UdpEvent.datagram (mkDatagram p)))
      = (RecvState.mk pend (sumLens pend), true) ∧
    materializeFile ((file.length + 1023) / 1024)
        (RecvState.mk pend (sumLens pend)) = file := by
  have h1023 : file.length + 1023 = file.length + 1024 - 1 := by omega
  constructor
  · have hc := receiveFileLoop_complete (show 0 < 1024 by omega) file hsize pend []
      (by simpa using hperm)
    rw [h1023]
    simpa [sumLens_nil] using hc
  · rw [h1023]
    exact materialize_of_perm (by omega) file pend _ hperm

set_option maxRecDepth 100000 in
/-- C1 witness: a 1025-byte file (two chunks) delivered in reverse order. -/
theorem c1_reassembly_completeness_witness :
    (List.replicate 1025 (7 : Nat)).length < 4294967296 ∧
    ((udpPairs 1024 0 (List.replicate 1025 (7 : Nat))).reverse).Perm
      (udpPairs 1024 0 (List.replicate 1025 (7 : Nat))) ∧
    (receiveFileLoop (List.replicate 1025 (7 : Nat)).length
        (((List.replicate 1025 (7 : Nat)).length + 1023) / 1024) (RecvState.mk [] 0)
        (((udpPairs 1024 0 (List.replicate 1025 (7 : Nat))).reverse).map
          (fun p => UdpEvent.datagram (mkDatagram p)))
      = (RecvState.mk ((udpPairs 1024 0 (List.replicate 1025 (7 : Nat))).reverse)
          (sumLens ((udpPairs 1024 0 (List.replicate 1025 (7 : Nat))).reverse)), true) ∧
    materializeFile (((List.replicate 1025 (7 : Nat)).length + 1023) / 1024)
        (RecvState.mk ((udpPairs 1024 0 (List.replicate 1025 (7 : Nat))).reverse)
          (sumLens ((udpPairs 1024 0 (List.replicate 1025 (7 : Nat))).reverse)))
      = List.replicate 1025 (7 : Nat)) :=
  ⟨by decide, List.reverse_perm _,
    c1_reassembly_completeness (List.replicate 1025 7) _ (by decide)
      (List.reverse_perm _)⟩

/-! ## Folding datagrams without the loop guard (for gap analysis) -/

theorem foldl_recvDatagram {cs : Nat} (hcs : 0 < cs) (file : List Nat)
    (hfl : file.length < 4294967296) :
    ∀ (pend done : List (Nat × List Nat)),
      ((done ++ pend).map Prod.fst).Nodup →
      (∀ p ∈ pend, p ∈ udpPairs cs 0 file) →
      List.foldl recvDatagram (RecvState.mk done (sumLens done)) (pend.map mkDatagram)
        = RecvState.mk (done ++ pend) (sumLens (done ++ pend)) := by
  intro pend
  induction pend with
  | nil => intro done _ _; simp
  | cons p rest ih =>
    intro done hnd hmem
    obtain ⟨i, c⟩ := p
    have hmemP := hmem (i, c) (by simp)
    obtain ⟨hin, hcc⟩ := udpPairs_mem hcs hmemP
    dsimp only at hin hcc
    have hcsl : cs * i < file.length := cs_mul_lt_of_lt_ceil hcs hin
    have hclen : c.length = min cs (file.length - cs * i) := by
      rw [hcc]; exact chunkAt_length cs file i
    have hi32 : i < 4294967296 := by
      have : i ≤ cs * i := Nat.le_mul_of_pos_left i hcs
      omega
    have hc32 : c.length < 4294967296 := by omega
    have hlookup : done.lookup i = none := by
      apply lookup_eq_none_of_not_mem_keys
      rw [List.map_append] at hnd
      have hdisj := (List.nodup_append.mp hnd).2.2
      intro hmemk
      exact hdisj hmemk (by simp)
    rw [List.map_cons, List.foldl_cons, recvDatagram_mk _ i c hi32 hc32]
    simp only [hlookup, Option.isNone_none, if_pos]
    have hstep : sumLens (done ++ [(i, c)]) = sumLens done + c.length := by
      simp [sumLens]
    rw [← hstep]
    rw [ih (done ++ [(i, c)])
      (by rw [List.append_assoc]; simpa using hnd)
      (fun q hq => hmem q (by simp [hq]))]
    simp

/-! ## Gap materialization -/

set_option maxHeartbeats 1000000 in
theorem materialize_gap {cs : Nat} (hcs : 0 < cs) (file : List Nat) (k : Nat)
    (pend : List (Nat × List Nat)) (r : Nat)
    (hk : k < (file.length + cs - 1) / cs)
    (hperm : pend.Perm ((udpPairs cs 0 file).filter (fun p => p.1 != k))) :
    materializeFile ((file.length + cs - 1) / cs) (RecvState.mk pend r)
      = file.take (cs * k) ++ file.drop (cs * (k + 1)) := by
  have hndP : ((udpPairs cs 0 file).map Prod.fst).Nodup := by
    rw [udpPairs_keys hcs]; exact List.nodup_range _
  have hnd : (pend.map Prod.fst).Nodup := by
    rw [(hperm.map Prod.fst).nodup_iff]
    exact ((List.filter_sublist _).map Prod.fst).nodup hndP
  have hcongr : ∀ i ∈ List.range ((file.length + cs - 1) / cs),
      ((RecvState.mk pend r).chunks.lookup i).getD []
        = if i = k then [] else chunkAt cs file i := by
    intro i hi
    rw [List.mem_range] at hi
    dsimp only
    by_cases hik : i = k
    · subst hik
      rw [if_pos rfl]
      rw [lookup_eq_none_of_not_mem_keys]
      · rfl
      · intro hmemk
        obtain ⟨p, hp, hpe⟩ := List.mem_map.mp hmemk
        rw [hperm.mem_iff, List.mem_filter] at hp
        rw [hpe] at hp
        simpa using hp.2
    · rw [if_neg hik]
      have hmem : (i, chunkAt cs file i) ∈ pend := by
        rw [hperm.mem_iff, List.mem_filter]
        exact ⟨mem_udpPairs_of_lt hcs hi, by simpa using hik⟩
      rw [lookup_eq_some_of_mem_nodup hmem hnd]
      rfl
  unfold materializeFile
  rw [List.map_congr_left hcongr]
  have hsplit : List.range ((file.length + cs - 1) / cs)
      = List.range (k + 1)
        ++ (List.range ((file.length + cs - 1) / cs - (k + 1))).map
             (fun x => (k + 1) + x) := by
    rw [← List.range_add]
    congr 1
    omega
  rw [hsplit, List.map_append, List.flatten_append]
  have hpartA : ((List.range (k + 1)).map
      (fun i => if i = k then [] else chunkAt cs file i)).flatten
      = file.take (cs * k) := by
    rw [List.range_succ, List.map_append, List.flatten_append]
    have : ∀ i ∈ List.range k,
        (if i = k then [] else chunkAt cs file i) = chunkAt cs file i := by
      intro i hi
      rw [List.mem_range] at hi
      rw [if_neg (by omega)]
    rw [List.map_congr_left this, flatten_range_chunkAt]
    simp
  have hpartB : (((List.range ((file.length + cs - 1) / cs - (k + 1))).map
      (fun x => (k + 1) + x)).map
        (fun i => if i = k then [] else chunkAt cs file i)).flatten
      = file.drop (cs * (k + 1)) := by
    rw [List.map_map]
    have hcong2 : ∀ x ∈ List.range ((file.length + cs - 1) / cs - (k + 1)),
        ((fun i => if i = k then [] else chunkAt cs file i) ∘ fun x => (k + 1) + x) x
          = chunkAt cs (file.drop (cs * (k + 1))) x := by
      intro x _
      simp only [Function.comp_apply]
      rw [if_neg (by omega), chunkAt_shift]
    rw [List.map_congr_left hcong2, flatten_range_chunkAt]
    apply List.take_of_length_le
    have hle := ceil_mul_ge hcs file.length
    have hexp : cs * ((file.length + cs - 1) / cs)
        = cs * (k + 1) + cs * ((file.length + cs - 1) / cs - (k + 1)) := by
      rw [← Nat.mul_add]
      congr 1
      omega
    rw [List.length_drop]
    omega
  rw [hpartA, hpartB]

/-! ## C4 -/

/-- C4 amended: when chunk `k` is never delivered (all other chunks arrive,
in any order), the materialized output is the original file with the byte range of chunk `k` deleted: later bytes shift down rather than being zero-filled, so
the output is shorter than the announced size by the length of the lost chunk --
it does not have the announced total length. -/
theorem c4_gap_behavior (file : List Nat) (k : Nat)
    (pend : List (Nat × List Nat))
    (hsize : file.length < 4294967296)
    (hk : k < (file.length + 1023) / 1024)
    (hperm : pend.Perm ((udpPairs 1024 0 file).filter (fun p => p.1 != k))) :
    materializeFile ((file.length + 1023) / 1024)
        (List.foldl recvDatagram (RecvState.mk [] 0) (pend.map mkDatagram))
      = file.take (1024 * k) ++ file.drop (1024 * (k + 1)) ∧
    (file.take (1024 * k) ++ file.drop (1024 * (k + 1))).length
        + (chunkAt 1024 file k).length = file.length ∧
    (file.take (1024 * k) ++ file.drop (1024 * (k + 1))).length < file.length := by
  have h1023 : file.length + 1023 = file.length + 1024 - 1 := by omega
  have hk' : k < (file.length + 1024 - 1) / 1024 := by rw [← h1023]; exact hk
  have hcsl : 1024 * k < file.length :=
    cs_mul_lt_of_lt_ceil (by omega) hk'
  have hndP : ((udpPairs 1024 0 file).map Prod.fst).Nodup := by
    rw [udpPairs_keys (by omega)]; exact List.nodup_range _
  have hnd : (pend.map Prod.fst).Nodup := by
    rw [(hperm.map Prod.fst).nodup_iff]
    exact ((List.filter_sublist _).map Prod.fst).nodup hndP
  have hmemP : ∀ q ∈ pend, q ∈ udpPairs 1024 0 file := by
    intro q hq
    exact (List.mem_filter.mp (hperm.subset hq)).1
  have hfold : List.foldl recvDatagram (RecvState.mk [] 0) (pend.map mkDatagram)
      = RecvState.mk pend (sumLens pend) := by
    have h0 : (RecvState.mk ([] : List (Nat × List Nat)) 0)
        = RecvState.mk [] (sumLens []) := by rw [sumLens_nil]
    rw [h0, foldl_recvDatagram (show 0 < 1024 by omega) file hsize pend []
      (by simpa using hnd) hmemP]
    simp
  refine ⟨?_, ?_, ?_⟩
  · rw [hfold, h1023]
    exact materialize_gap (by omega) file k pend _ hk' hperm
  · rw [List.length_append, List.length_take, List.length_drop, chunkAt_length]
    have hmul : 1024 * (k + 1) = 1024 * k + 1024 := by rw [Nat.mul_succ]
    have hmin1 : min (1024 * k) file.length = 1024 * k := Nat.min_eq_left (by omega)
    rw [hmin1]
    rcases le_or_lt (1024 * k + 1024) file.length with hc2 | hc2
    · rw [Nat.min_eq_left (by omega)]
      omega
    · rw [Nat.min_eq_right (by omega)]
      omega
  · rw [List.length_append, List.length_take, List.length_drop]
    have hmul : 1024 * (k + 1) = 1024 * k + 1024 := by rw [Nat.mul_succ]
    have hmin1 : min (1024 * k) file.length = 1024 * k := Nat.min_eq_left (by omega)
    rw [hmin1]
    omega

set_option maxRecDepth 100000 in
/-- C4 witness: the amended statement with a 1025-byte file and chunk 0
dropped. -/
theorem c4_gap_behavior_witness :
    (List.replicate 1025 (7 : Nat)).length < 4294967296 ∧
    0 < ((List.replicate 1025 (7 : Nat)).length + 1023) / 1024 ∧
    (materializeFile (((List.replicate 1025 (7 : Nat)).length + 1023) / 1024)
        (List.foldl recvDatagram (RecvState.mk [] 0)
          (((udpPairs 1024 0 (List.replicate 1025 (7 : Nat))).filter
              (fun p => p.1 != 0)).map mkDatagram))
      = (List.replicate 1025 (7 : Nat)).take (1024 * 0)
          ++ (List.replicate 1025 (7 : Nat)).drop (1024 * (0 + 1)) ∧
    ((List.replicate 1025 (7 : Nat)).take (1024 * 0)
        ++ (List.replicate 1025 (7 : Nat)).drop (1024 * (0 + 1))).length
        + (chunkAt 1024 (List.replicate 1025 (7 : Nat)) 0).length
      = (List.replicate 1025 (7 : Nat)).length ∧
    ((List.replicate 1025 (7 : Nat)).take (1024 * 0)
        ++ (List.replicate 1025 (7 : Nat)).drop (1024 * (0 + 1))).length
      < (List.replicate 1025 (7 : Nat)).length) :=
  ⟨by decide, by decide,
    c4_gap_behavior (List.replicate 1025 7) 0 _ (by decide) (by decide)
      (List.Perm.refl _)⟩

/-! ## The concrete two-chunk file -/

set_option maxRecDepth 100000 in
theorem udpPairs_replicate1025 :
    udpPairs 1024 0 (List.replicate 1025 (7 : Nat))
      = [(0, List.replicate 1024 7), (1, [7])] := by
  rw [udpPairs_eq 1024 (by omega) _ 0]
  rw [List.length_replicate]
  rw [show (1025 + 1024 - 1) / 1024 = 2 from by norm_num]
  rw [show List.range 2 = [0, 1] from rfl]
  simp only [List.map_cons, List.map_nil, chunkAt]
  rw [Nat.mul_zero, Nat.mul_one, List.drop_zero, List.take_replicate,
    List.drop_replicate, List.take_replicate]
  norm_num

/-! ## C4 counterexample -/

set_option maxRecDepth 100000 in
/-- C4 counterexample: for the 1025-byte file of 7s (two chunks of 1024 and
1 bytes), delivering only the second datagram of the sender materializes the
single byte `[7]`: the output does not have the announced total length 1025
(the missing range is skipped, not zero-filled). -/
theorem c4_counterexample :
    udpDatagrams (List.replicate 1025 (7 : Nat))
      = [mkDatagram (0, List.replicate 1024 7), mkDatagram (1, [7])] ∧
    materializeFile (((List.replicate 1025 (7 : Nat)).length + 1023) / 1024)
        (List.foldl recvDatagram (RecvState.mk [] 0) [mkDatagram (1, [7])])
      = [7] ∧
    ¬((materializeFile (((List.replicate 1025 (7 : Nat)).length + 1023) / 1024)
          (List.foldl recvDatagram (RecvState.mk [] 0) [mkDatagram (1, [7])])).length
        = (List.replicate 1025 (7 : Nat)).length) := by
  refine ⟨?_, by decide, by decide⟩
  rw [udpDatagrams, udpPairs_replicate1025]
  rfl

/-! ## C3 -/

/-- C3 amended: the receive loop keeps waiting across any number of quiet
poll timeouts while a chunk is missing (it ends a session on a timeout only
when the expected number of distinct chunks is already stored), and whenever
the loop does exit, either the received bytes have reached the announced
size or the expected chunk count is present -- so a permanently lost chunk
means the loop never terminates; no quiet-period timeout declares the
session incomplete. -/
theorem c3_loop_exit_conditions (fileSize expected : Nat) :
    (∀ (st : RecvState) (nq : Nat),
      st.received < fileSize → st.chunks.length < expected →
      receiveFileLoop fileSize expected st (List.replicate nq UdpEvent.timeout)
        = (st, false)) ∧
    (∀ (st : RecvState) (evs : List UdpEvent) (stf : RecvState),
      receiveFileLoop fileSize expected st evs = (stf, true) →
      fileSize ≤ stf.received ∨ expected ≤ stf.chunks.length) := by
  constructor
  · intro st nq h1 h2
    induction nq with
    | zero =>
      rw [List.replicate_zero, receiveFileLoop.eq_def, if_pos h1]
    | succ n ihn =>
      rw [List.replicate_succ, receiveFileLoop.eq_def, if_pos h1]
      show (if expected ≤ st.chunks.length then (st, true)
          else receiveFileLoop fileSize expected st
            (List.replicate n UdpEvent.timeout)) = (st, false)
      rw [if_neg (by omega)]
      exact ihn
  · intro st evs
    induction evs generalizing st with
    | nil =>
      intro stf h
      rw [receiveFileLoop.eq_def] at h
      by_cases h1 : st.received < fileSize
      · rw [if_pos h1] at h
        have h' : (st, false) = (stf, true) := h
        simp at h'
      · rw [if_neg h1] at h
        have h' : (st, true) = (stf, true) := h
        have h2 : st = stf := congrArg Prod.fst h'
        left
        rw [← h2]
        omega
    | cons e rest ihe =>
      intro stf h
      rw [receiveFileLoop.eq_def] at h
      by_cases h1 : st.received < fileSize
      · rw [if_pos h1] at h
        cases e with
        | datagram d =>
          exact ihe (recvDatagram st d) stf h
        | timeout =>
          have h' : (if expected ≤ st.chunks.length then (st, true)
              else receiveFileLoop fileSize expected st rest) = (stf, true) := h
          by_cases h2 : expected ≤ st.chunks.length
          · rw [if_pos h2] at h'
            have h3 : st = stf := congrArg Prod.fst h'
            right
            rw [← h3]
            exact h2
          · rw [if_neg h2] at h'
            exact ihe st stf h'
      · rw [if_neg h1] at h
        have h' : (st, true) = (stf, true) := h
        have h2 : st = stf := congrArg Prod.fst h'
        left
        rw [← h2]
        omega

/-- C3 witness: five quiet timeouts leave a one-chunk-short session waiting,
and a session whose byte counter already equals the size exits with the
byte-count condition satisfied. -/
theorem c3_loop_exit_conditions_witness :
    (RecvState.mk [(1, [7])] 1).received < 1025 ∧
    (RecvState.mk [(1, [7])] 1).chunks.length < 2 ∧
    receiveFileLoop 1025 2 (RecvState.mk [(1, [7])] 1)
        (List.replicate 5 UdpEvent.timeout) = (RecvState.mk [(1, [7])] 1, false) ∧
    (1025 ≤ (RecvState.mk ([] : List (Nat × List Nat)) 1025).received
      ∨ 2 ≤ (RecvState.mk ([] : List (Nat × List Nat)) 1025).chunks.length) :=
  ⟨by decide, by decide,
    (c3_loop_exit_conditions 1025 2).1 (RecvState.mk [(1, [7])] 1) 5
      (by decide) (by decide),
    (c3_loop_exit_conditions 1025 2).2 (RecvState.mk [] 1025) []
      (RecvState.mk [] 1025) (by decide)⟩

set_option maxRecDepth 100000 in
/-- C3 counterexample: a session for the two-chunk 1025-byte file in which
the first datagram is lost: after the second datagram arrives, fifty
consecutive quiet timeouts elapse and the loop is still waiting -- no
liveness timeout ends the session or declares it incomplete. -/
theorem c3_counterexample :
    udpDatagrams (List.replicate 1025 (7 : Nat))
      = [mkDatagram (0, List.replicate 1024 7), mkDatagram (1, [7])] ∧
    receiveFileLoop (List.replicate 1025 (7 : Nat)).length
        (((List.replicate 1025 (7 : Nat)).length + 1023) / 1024)
        (RecvState.mk [] 0)
        (UdpEvent.datagram (mkDatagram (1, [7])) :: List.replicate 50 UdpEvent.timeout)
      = (RecvState.mk [(1, [7])] 1, false) := by
  refine ⟨?_, by decide⟩
  rw [udpDatagrams, udpPairs_replicate1025]
  rfl
/-! ## Registry helper lemmas -/

theorem lookup_isSome_of_mem_keys {β : Type} {k : Nat} {l : List (Nat × β)}
    (h : k ∈ l.map Prod.fst) : ∃ v, l.lookup k = some v := by
  induction l with
  | nil => simp at h
  | cons p rest ih =>
    by_cases hk : k = p.1
    · refine ⟨p.2, ?_⟩
      rw [show (p : Nat × β) = (p.1, p.2) from rfl]
      simp [List.lookup, hk]
    · simp only [List.map_cons, List.mem_cons] at h
      rcases h with h | h
      · exact absurd h hk
      · obtain ⟨v, hv⟩ := ih h
        refine ⟨v, ?_⟩
        rw [show (p : Nat × β) = (p.1, p.2) from rfl]
        simp only [List.lookup, beq_eq_false_iff_ne.mpr hk]
        exact hv

theorem keys_eraseP_of_nodup {β : Type} {d : Nat} {l : List (Nat × β)}
    (hnd : (l.map Prod.fst).Nodup) :
    d ∉ (l.eraseP (fun p => p.1 == d)).map Prod.fst := by
  induction l with
  | nil => simp
  | cons p rest ih =>
    simp only [List.map_cons, List.nodup_cons] at hnd
    by_cases hk : p.1 = d
    · rw [List.eraseP_cons]
      simp only [hk, beq_self_eq_true, cond_true]
      simp only [hk] at hnd
      intro hmem
      exact hnd.1 hmem
    · rw [List.eraseP_cons]
      simp only [beq_eq_false_iff_ne.mpr hk, cond_false]
      simp only [List.map_cons, List.mem_cons, not_or]
      exact ⟨fun he => hk he.symm, ih hnd.2⟩

/-! ## Broadcast with no failing recipients -/

theorem broadcastLoop_no_failure (dead : List Nat) (msg : List Char)
    (ex : Option Nat) (fuel : Nat) :
    ∀ (snap : List Nat) (st : ServerState),
      (∀ x ∈ snap, x ∉ dead ∧ x ∉ st.closed) →
      (broadcastLoop dead msg ex fuel snap st).clients = st.clients ∧
      (broadcastLoop dead msg ex fuel snap st).groups = st.groups ∧
      (broadcastLoop dead msg ex fuel snap st).closed = st.closed ∧
      (∀ e ∈ st.log, e ∈ (broadcastLoop dead msg ex fuel snap st).log) ∧
      (∀ x ∈ snap, some x ≠ ex → (x, msg) ∈ (broadcastLoop dead msg ex fuel snap st).log) := by
  intro snap
  induction snap with
  | nil =>
    intro st _
    rw [broadcastLoop]
    exact ⟨rfl, rfl, rfl, fun e he => he, by simp⟩
  | cons s rest ih =>
    intro st hok
    have hs := hok s (by simp)
    by_cases hex : some s = ex
    · rw [broadcastLoop, if_pos hex]
      obtain ⟨h1, h2, h3, h4, h5⟩ := ih st (fun x hx => hok x (by simp [hx]))
      refine ⟨h1, h2, h3, h4, ?_⟩
      intro x hx hxe
      rcases List.mem_cons.mp hx with h | h
      · exact absurd (h ▸ hex) hxe
      · exact h5 x h hxe
    · rw [broadcastLoop, if_neg hex]
      have hsend : sendMessage dead st s msg
          = ({ st with log := st.log ++ [(s, msg)] }, true) := by
        rw [sendMessage, if_neg (by push_neg; exact hs)]
      rw [hsend]
      obtain ⟨h1, h2, h3, h4, h5⟩ :=
        ih { st with log := st.log ++ [(s, msg)] }
          (fun x hx => hok x (by simp [hx]))
      refine ⟨h1, h2, h3, ?_, ?_⟩
      · intro e he
        exact h4 e (by simp [he])
      · intro x hx hxe
        rcases List.mem_cons.mp hx with h | h
        · subst h
          exact h4 (x, msg) (by simp)
        · exact h5 x h hxe

/-! ## Broadcast with exactly one dead recipient -/

set_option maxHeartbeats 1000000 in
theorem broadcastLoop_single_dead (d : Nat) (msg : List Char) (exS : Nat)
    (fuel : Nat) (origClients : List (Nat × ClientInfo))
    (origGroups : List (List Char × List Nat))
    (hne : d ≠ exS) (hd : d ∈ origClients.map Prod.fst)
    (hnodup : (origClients.map Prod.fst).Nodup) :
    ∀ (pre : List Nat) (post : List Nat) (st : ServerState),
      d ∉ pre → d ∉ post →
      st.clients = origClients → st.groups = origGroups → st.closed = [] →
      (broadcastLoop [d] msg (some exS) fuel (pre ++ d :: post) st).clients
          = origClients.eraseP (fun p => p.1 == d) ∧
      (broadcastLoop [d] msg (some exS) fuel (pre ++ d :: post) st).groups
          = purgeSock d origGroups ∧
      (broadcastLoop [d] msg (some exS) fuel (pre ++ d :: post) st).closed = [d] ∧
      (∀ e ∈ st.log, e ∈ (broadcastLoop [d] msg (some exS) fuel (pre ++ d :: post) st).log) ∧
      (∀ x ∈ pre ++ post, x ≠ exS →
        (x, msg) ∈ (broadcastLoop [d] msg (some exS) fuel (pre ++ d :: post) st).log) := by
  intro pre
  induction pre with
  | nil =>
    intro post st _ hdpost hcl hgr hclosed
    obtain ⟨info, hinfo⟩ := lookup_isSome_of_mem_keys
      (show d ∈ st.clients.map Prod.fst by rw [hcl]; exact hd)
    have hsend : sendMessage [d] st d msg = (st, false) := by
      rw [sendMessage, if_pos (Or.inl (by simp))]
    have hloop : broadcastLoop [d] msg (some exS) fuel (d :: post) st
        = broadcastLoop [d] msg (some exS) fuel post (removeClient [d] fuel st d) := by
      rw [broadcastLoop, if_neg (show ¬(some d = some exS) by simpa using hne), hsend]
    rw [List.nil_append, hloop]
    set st1 : ServerState := ServerState.mk (st.clients.eraseP (fun p => p.1 == d))
      (purgeSock d st.groups) (st.closed ++ [d]) st.log with hst1
    have hafter : ∀ st2 : ServerState,
        st2.clients = origClients.eraseP (fun p => p.1 == d) →
        st2.groups = purgeSock d origGroups →
        st2.closed = [d] →
        (∀ e ∈ st.log, e ∈ st2.log) →
        (broadcastLoop [d] msg (some exS) fuel post st2).clients
            = origClients.eraseP (fun p => p.1 == d) ∧
        (broadcastLoop [d] msg (some exS) fuel post st2).groups
            = purgeSock d origGroups ∧
        (broadcastLoop [d] msg (some exS) fuel post st2).closed = [d] ∧
        (∀ e ∈ st.log, e ∈ (broadcastLoop [d] msg (some exS) fuel post st2).log) ∧
        (∀ x ∈ ([] : List Nat) ++ post, x ≠ exS →
          (x, msg) ∈ (broadcastLoop [d] msg (some exS) fuel post st2).log) := by
      intro st2 hc2 hg2 hcl2 hlog2
      have hok2 : ∀ x ∈ post, x ∉ ([d] : List Nat) ∧ x ∉ st2.closed := by
        intro x hx
        have hxd : x ≠ d := fun he => hdpost (he ▸ hx)
        rw [hcl2]
        simp [hxd]
      obtain ⟨g1, g2, g3, g4, g5⟩ :=
        broadcastLoop_no_failure [d] msg (some exS) fuel post st2 hok2
      refine ⟨by rw [g1, hc2], by rw [g2, hg2], by rw [g3, hcl2], ?_, ?_⟩
      · intro e he
        exact g4 e (hlog2 e he)
      · intro x hx hxe
        exact g5 x (by simpa using hx) (by simpa using hxe)
    have hkeys : ∀ x ∈ st1.clients.map Prod.fst,
        x ∉ ([d] : List Nat) ∧ x ∉ st1.closed := by
      intro x hx
      have hxd : x ≠ d := by
        intro he
        subst he
        exact keys_eraseP_of_nodup (show (st.clients.map Prod.fst).Nodup by
          rw [hcl]; exact hnodup) hx
      constructor
      · simp [hxd]
      · rw [hst1]
        simp [hclosed, hxd]
    cases fuel with
    | zero =>
      have hrem : removeClient [d] 0 st d = st1 := by
        rw [removeClient, hinfo]
      rw [hrem]
      exact hafter st1 (by rw [hst1]; simp [hcl]) (by rw [hst1]; simp [hgr])
        (by rw [hst1]; simp [hclosed]) (fun e he => he)
    | succ fuel' =>
      have hrem : removeClient [d] (fuel' + 1) st d
          = broadcastLoop [d] (info.username ++ " has left".toList) none fuel'
              (st1.clients.map Prod.fst) st1 := by
        rw [removeClient, hinfo]
      rw [hrem]
      obtain ⟨n1, n2, n3, n4, n5⟩ :=
        broadcastLoop_no_failure [d] (info.username ++ " has left".toList) none fuel'
          (st1.clients.map Prod.fst) st1 hkeys
      exact hafter _ (by rw [n1, hst1]; simp [hcl]) (by rw [n2, hst1]; simp [hgr])
        (by rw [n3, hst1]; simp [hclosed]) n4
  | cons a pre' ih =>
    intro post st hdpre hdpost hcl hgr hclosed
    have had : a ≠ d := fun he => hdpre (by simp [he])
    rw [List.cons_append, broadcastLoop]
    by_cases hex : some a = some exS
    · rw [if_pos hex]
      obtain ⟨g1, g2, g3, g4, g5⟩ := ih post st (fun hm => hdpre (by simp [hm]))
        hdpost hcl hgr hclosed
      refine ⟨g1, g2, g3, g4, ?_⟩
      intro x hx hxe
      rcases List.mem_cons.mp hx with h | h
      · exact absurd (by simpa using hex : a = exS) (h ▸ hxe)
      · exact g5 x h hxe
    · rw [if_neg hex]
      have hsend : sendMessage [d] st a msg
          = ({ st with log := st.log ++ [(a, msg)] }, true) := by
        rw [sendMessage, if_neg (by
          push_neg
          constructor
          · simp [had]
          · rw [hclosed]; simp)]
      rw [hsend]
      obtain ⟨g1, g2, g3, g4, g5⟩ := ih post { st with log := st.log ++ [(a, msg)] }
        (fun hm => hdpre (by simp [hm])) hdpost (by simp [hcl]) (by simp [hgr])
        (by simp [hclosed])
      refine ⟨g1, g2, g3, ?_, ?_⟩
      · intro e he
        exact g4 e (by simp [he])
      · intro x hx hxe
        rcases List.mem_cons.mp hx with h | h
        · subst h
          exact g4 (x, msg) (by simp)
        · exact g5 x h hxe

/-! ## C7 -/

/-- C7: during a broadcast over the registered connections with exactly one
dead recipient `d` (not the excluded sender), the failed send removes only
`d`: the final registry is the registry without `d`, the groups are the
groups with `d` purged (empty groups deleted), `d` is the only closed
socket, and the message is still delivered to every other registered,
non-excluded connection -- the broadcast is not aborted. -/
theorem c7_broadcast_failure_isolation (st : ServerState) (d exS : Nat)
    (msg : List Char) (fuel : Nat)
    (hd : d ∈ st.clients.map Prod.fst) (hne : d ≠ exS)
    (hnodup : (st.clients.map Prod.fst).Nodup)
    (hclosed : st.closed = []) :
    (broadcastMessage [d] fuel st msg (some exS)).clients
        = st.clients.eraseP (fun p => p.1 == d) ∧
    (broadcastMessage [d] fuel st msg (some exS)).groups
        = purgeSock d st.groups ∧
    (broadcastMessage [d] fuel st msg (some exS)).closed = [d] ∧
    (∀ x ∈ st.clients.map Prod.fst, x ≠ exS → x ≠ d →
      (x, msg) ∈ (broadcastMessage [d] fuel st msg (some exS)).log) := by
  obtain ⟨pre, post, hsplit⟩ := List.append_of_mem hd
  have hnd2 : d ∉ pre ∧ d ∉ post := by
    have := hnodup
    rw [hsplit] at this
    have h1 := List.nodup_append.mp this
    have hdp : d ∉ pre := fun hm => h1.2.2 hm (by simp)
    have hdq : d ∉ post := by
      have := h1.2.1
      rw [List.nodup_cons] at this
      exact this.1
    exact ⟨hdp, hdq⟩
  have hmain := broadcastLoop_single_dead d msg exS fuel st.clients st.groups hne hd
    hnodup pre post st hnd2.1 hnd2.2 rfl rfl hclosed
  rw [broadcastMessage, hsplit]
  obtain ⟨g1, g2, g3, g4, g5⟩ := hmain
  refine ⟨g1, g2, g3, ?_⟩
  intro x hx hxe hxd
  have hx2 : x ∈ pre ++ post := by
    rcases List.mem_append.mp hx with h | h
    · exact List.mem_append.mpr (Or.inl h)
    · rcases List.mem_cons.mp h with h | h
      · exact absurd h hxd
      · exact List.mem_append.mpr (Or.inr h)
  exact g5 x hx2 hxe
/-- C7 witness: three clients, client 1 broadcasts, the connection of client 2 is
dead: only client 2 is removed (also from the group), and client 3 still
receives the message. -/
theorem c7_broadcast_failure_isolation_witness :
    (2 ∈ (ServerState.mk [(1, ClientInfo.mk ("a".toList) 0),
        (2, ClientInfo.mk ("b".toList) 0), (3, ClientInfo.mk ("c".toList) 0)]
        [("g".toList, [2, 3])] [] []).clients.map Prod.fst) ∧
    (2 : Nat) ≠ 1 ∧
    (((ServerState.mk [(1, ClientInfo.mk ("a".toList) 0),
        (2, ClientInfo.mk ("b".toList) 0), (3, ClientInfo.mk ("c".toList) 0)]
        [("g".toList, [2, 3])] [] []).clients.map Prod.fst).Nodup) ∧
    ((broadcastMessage [2] 1 (ServerState.mk [(1, ClientInfo.mk ("a".toList) 0),
        (2, ClientInfo.mk ("b".toList) 0), (3, ClientInfo.mk ("c".toList) 0)]
        [("g".toList, [2, 3])] [] []) ("hi".toList) (some 1)).clients
      = (ServerState.mk [(1, ClientInfo.mk ("a".toList) 0),
          (2, ClientInfo.mk ("b".toList) 0), (3, ClientInfo.mk ("c".toList) 0)]
          [("g".toList, [2, 3])] [] []).clients.eraseP (fun p => p.1 == 2) ∧
    (broadcastMessage [2] 1 (ServerState.mk [(1, ClientInfo.mk ("a".toList) 0),
        (2, ClientInfo.mk ("b".toList) 0), (3, ClientInfo.mk ("c".toList) 0)]
        [("g".toList, [2, 3])] [] []) ("hi".toList) (some 1)).groups
      = purgeSock 2 [("g".toList, [2, 3])] ∧
    (broadcastMessage [2] 1 (ServerState.mk [(1, ClientInfo.mk ("a".toList) 0),
        (2, ClientInfo.mk ("b".toList) 0), (3, ClientInfo.mk ("c".toList) 0)]
        [("g".toList, [2, 3])] [] []) ("hi".toList) (some 1)).closed = [2] ∧
    (∀ x ∈ (ServerState.mk [(1, ClientInfo.mk ("a".toList) 0),
        (2, ClientInfo.mk ("b".toList) 0), (3, ClientInfo.mk ("c".toList) 0)]
        [("g".toList, [2, 3])] [] []).clients.map Prod.fst, x ≠ 1 → x ≠ 2 →
      (x, "hi".toList) ∈ (broadcastMessage [2] 1
        (ServerState.mk [(1, ClientInfo.mk ("a".toList) 0),
          (2, ClientInfo.mk ("b".toList) 0), (3, ClientInfo.mk ("c".toList) 0)]
          [("g".toList, [2, 3])] [] []) ("hi".toList) (some 1)).log)) :=
  ⟨by decide, by decide, by decide,
    c7_broadcast_failure_isolation _ 2 1 ("hi".toList) 1 (by decide) (by decide)
      (by decide) rfl⟩

/-! ## C8 -/

set_option maxHeartbeats 1000000 in
/-- C8: processing `/UNICAST alice hello` from a registered sender `s` (no
dead or closed sockets) leaves the registry and groups unchanged and appends
exactly one log entry: the message `[UNICAST] <sender>: hello` to the first
connection registered as `alice` other than the sender when one exists, and
otherwise the reply `User alice not found` (alice in single quotes) to the sender; any found target
is indeed registered as `alice` and is not the sender. -/
theorem c8_unicast_routing (st : ServerState) (s : Nat) (info : ClientInfo)
    (fuel : Nat) (hs : st.clients.lookup s = some info) (hclosed : st.closed = []) :
    (handleClientMessage fuel [] st s ("/UNICAST alice hello".toList)).clients
        = st.clients ∧
    (handleClientMessage fuel [] st s ("/UNICAST alice hello".toList)).groups
        = st.groups ∧
    (handleClientMessage fuel [] st s ("/UNICAST alice hello".toList)).log
      = st.log ++ [match st.clients.find?
            (fun p => p.2.username == "alice".toList && some p.1 != some s) with
          | some p =>
            (p.1, "[UNICAST] ".toList ++ info.username ++ ": ".toList ++ "hello".toList)
          | none =>
            (s, "User ".toList ++ sglq ++ "alice".toList ++ sglq ++ " not found".toList)] ∧
    (∀ p : Nat × ClientInfo,
      st.clients.find? (fun p => p.2.username == "alice".toList && some p.1 != some s)
          = some p →
      p.2.username = "alice".toList ∧ p.1 ≠ s) := by
  have hun : unicastMessage [] fuel st
      ("[UNICAST] ".toList ++ info.username ++ ": ".toList ++ "hello".toList)
      ("alice".toList) (some s)
      = ({ st with log := st.log ++ [match st.clients.find?
            (fun p => p.2.username == "alice".toList && some p.1 != some s) with
          | some p =>
            (p.1, "[UNICAST] ".toList ++ info.username ++ ": ".toList ++ "hello".toList)
          | none =>
            (s, "User ".toList ++ sglq ++ "alice".toList ++ sglq ++ " not found".toList)] },
        true) := by
    rw [unicastMessage]
    cases hfind : st.clients.find?
        (fun p => p.2.username == "alice".toList && some p.1 != some s) with
    | none =>
      have hsend : sendMessage [] st s
          ("User ".toList ++ sglq ++ "alice".toList ++ sglq ++ " not found".toList)
          = ({ st with log := st.log ++ [(s, "User ".toList ++ sglq ++ "alice".toList
              ++ sglq ++ " not found".toList)] }, true) := by
        rw [sendMessage, if_neg (by rw [hclosed]; simp)]
      exact hsend
    | some p =>
      have hsend : sendMessage [] st p.1
          ("[UNICAST] ".toList ++ info.username ++ ": ".toList ++ "hello".toList)
          = ({ st with log := st.log ++ [(p.1, "[UNICAST] ".toList ++ info.username
              ++ ": ".toList ++ "hello".toList)] }, true) := by
        rw [sendMessage, if_neg (by rw [hclosed]; simp)]
      show (match sendMessage [] st p.1
            ("[UNICAST] ".toList ++ info.username ++ ": ".toList ++ "hello".toList) with
          | (st1, true) => (st1, true)
          | (st1, false) => (removeClient [] fuel st1 p.1, true))
        = ({ st with log := st.log ++ [(p.1, "[UNICAST] ".toList ++ info.username
            ++ ": ".toList ++ "hello".toList)] }, true)
      rw [hsend]
  have hhandle : handleClientMessage fuel [] st s ("/UNICAST alice hello".toList)
      = (unicastMessage [] fuel st
          ("[UNICAST] ".toList ++ info.username ++ ": ".toList ++ "hello".toList)
          ("alice".toList) (some s)).1 := by
    rw [handleClientMessage]
    rw [if_neg (by decide)]
    rw [hs]
    rw [show pySplit2 (pyStrip ("/UNICAST alice hello".toList))
        = ["/UNICAST".toList, "alice".toList, "hello".toList] from by decide]
    dsimp only
    rw [show pyUpper ((["/UNICAST".toList, "alice".toList, "hello".toList]).getD 0 [])
        = "/UNICAST".toList from by decide]
    rw [show (["/UNICAST".toList, "alice".toList, "hello".toList]).getD 1 []
        = "alice".toList from rfl]
    rw [show (["/UNICAST".toList, "alice".toList, "hello".toList]).getD 2 []
        = "hello".toList from rfl]
    rw [if_neg (show ¬("/UNICAST".toList = "/LEAVE".toList) from by decide)]
    rw [if_neg (show ¬("/UNICAST".toList = "/BROADCAST".toList) from by decide)]
    rw [if_pos (show ("/UNICAST".toList) = "/UNICAST".toList from rfl)]
    rw [if_pos (show (3 : Nat) ≤
      (["/UNICAST".toList, "alice".toList, "hello".toList]).length from by decide)]
    rw [hun]
    rfl
  refine ⟨?_, ?_, ?_, ?_⟩
  · rw [hhandle, hun]
  · rw [hhandle, hun]
  · rw [hhandle, hun]
  · intro p hp
    have := List.find?_some hp
    rw [Bool.and_eq_true] at this
    constructor
    · exact beq_iff_eq.mp this.1
    · have h2 := this.2
      rw [bne_iff_ne] at h2
      intro he
      exact h2 (by rw [he])

/-- C8 witness: sockets 1 (bob) and 2 (alice); the `/UNICAST alice hello` of bob
is logged to socket 2 only, and with no alice registered the sender gets the
not-found reply. -/
theorem c8_unicast_routing_witness :
    ((ServerState.mk [(1, ClientInfo.mk ("bob".toList) 0),
        (2, ClientInfo.mk ("alice".toList) 0)] [] [] []).clients.lookup 1
      = some (ClientInfo.mk ("bob".toList) 0)) ∧
    ((handleClientMessage 1 [] (ServerState.mk [(1, ClientInfo.mk ("bob".toList) 0),
        (2, ClientInfo.mk ("alice".toList) 0)] [] [] []) 1
        ("/UNICAST alice hello".toList)).log
      = [(2, "[UNICAST] ".toList ++ "bob".toList ++ ": ".toList ++ "hello".toList)]) ∧
    ((handleClientMessage 1 [] (ServerState.mk [(1, ClientInfo.mk ("bob".toList) 0)]
        [] [] []) 1 ("/UNICAST alice hello".toList)).log
      = [(1, "User ".toList ++ sglq ++ "alice".toList ++ sglq ++ " not found".toList)]) := by
  refine ⟨by decide, ?_, ?_⟩
  · have h := (c8_unicast_routing (ServerState.mk [(1, ClientInfo.mk ("bob".toList) 0),
        (2, ClientInfo.mk ("alice".toList) 0)] [] [] []) 1
        (ClientInfo.mk ("bob".toList) 0) 1 (by decide) rfl).2.2.1
    rw [h]
    rw [show (ServerState.mk [(1, ClientInfo.mk ("bob".toList) 0),
        (2, ClientInfo.mk ("alice".toList) 0)] [] [] []).clients.find?
          (fun p => p.2.username == "alice".toList && some p.1 != some 1)
        = some (2, ClientInfo.mk ("alice".toList) 0) from by decide]
    decide
  · have h := (c8_unicast_routing (ServerState.mk [(1, ClientInfo.mk ("bob".toList) 0)]
        [] [] []) 1 (ClientInfo.mk ("bob".toList) 0) 1 (by decide) rfl).2.2.1
    rw [h]
    rw [show (ServerState.mk [(1, ClientInfo.mk ("bob".toList) 0)] [] [] []).clients.find?
          (fun p => p.2.username == "alice".toList && some p.1 != some 1)
        = none from by decide]
    decide

/-! ## C5 -/

/-- C5: the empty-group bug.  With `alice` (socket 1) the sole member of
group `g`, her `/LEAVEGROUP g` arrives but her connection is dead, so the
`Left group` confirmation send raises after she was removed from the member
list and before the empty-group deletion; the handler except-clause then runs
`remove_client`, which skips `g` (she is no longer a member).  The group
directory is left holding `g` with zero members, and the `/LISTGROUPS` text
reports `g (0 members): `. -/
theorem c5_empty_group_bug :
    (handleClientMessage 2 [1]
        (ServerState.mk [(1, ClientInfo.mk ("alice".toList) 0)]
          [("g".toList, [1])] [] []) 1 ("/LEAVEGROUP g".toList)).groups
      = [("g".toList, [])] ∧
    listGroupsText (handleClientMessage 2 [1]
        (ServerState.mk [(1, ClientInfo.mk ("alice".toList) 0)]
          [("g".toList, [1])] [] []) 1 ("/LEAVEGROUP g".toList))
      = "g (0 members): ".toList := by
  have hh : handleClientMessage 2 [1]
      (ServerState.mk [(1, ClientInfo.mk ("alice".toList) 0)]
        [("g".toList, [1])] [] []) 1 ("/LEAVEGROUP g".toList)
      = removeClient [1] 2
          (ServerState.mk [(1, ClientInfo.mk ("alice".toList) 0)]
            [("g".toList, [])] [] []) 1 := rfl
  have hrem : removeClient [1] 2
      (ServerState.mk [(1, ClientInfo.mk ("alice".toList) 0)]
        [("g".toList, [])] [] []) 1
      = ServerState.mk [] [("g".toList, [])] [1] [] := by
    rw [removeClient]
    show broadcastLoop [1] ("alice".toList ++ " has left".toList) none 1 []
        (ServerState.mk [] [("g".toList, [])] [1] [])
      = ServerState.mk [] [("g".toList, [])] [1] []
    rw [broadcastLoop]
  rw [hh, hrem]
  exact ⟨rfl, by decide⟩

/-! ## C10 -/

/-- C10: every datagram-mode session announces the same destination port --
the TCP port of the server plus one -- in its `UDP_PORT` control message, and
sends its datagrams to that port, regardless of the requesting client
address or the file; hence any two concurrent datagram downloads share one
destination port. -/
theorem c10_udp_port_constant (port a1 a2 : Nat) (f1 f2 : List Char)
    (b1 b2 : List Nat) :
    (sendFileUdp port a1 f1 b1).dest.2 = (sendFileUdp port a2 f2 b2).dest.2 ∧
    (sendFileUdp port a1 f1 b1).dest.2 = port + 1 ∧
    (sendFileUdp port a1 f1 b1).controlMsgs.getD 1 []
      = "UDP_PORT:".toList ++ (toString (port + 1)).toList :=
  ⟨rfl, rfl, rfl⟩
